import Mathlib

/-!
# prenamer: classification, renaming and pruning

A shallow embedding of `main.go`.

Conventions of the embedding.

* A Go `string` is a sequence of bytes; it is embedded as `List Char`, one `Char` per byte.
  String literals of the source appear as `"...".toList`.
* Go `int` is the 64-bit signed integer; values are embedded in `Int` and the only place
  where the width matters (`strconv.Atoi`) clamps explicitly.
* A function that can end the process (`log.Fatal`, a runtime panic) returns
  `Except Abort _`; the file system, the log and the external commands are threaded
  through as an explicit `World`.
* The patterns handed to `regexp` are the strings that `fmt.Sprintf` builds, configuration
  strings included as they are, and they are compiled as regular-expression syntax. The
  embedding compiles and matches the patterns made of ASCII bytes that are no
  metacharacters and of units, a unit being one of the classes `[^/]`, `\d`, `.` followed
  by `*` or `+`, bare or as a capture group, no unit directly after another: unanchored,
  leftmost, greedy, as Go does; on these patterns matching byte by byte agrees with
  matching rune by rune. For every other
  pattern (any other use of a metacharacter, a byte outside ASCII) the answers of package
  `regexp`, whether it compiles and what it matches, are a parameter of the world, and
  nothing is assumed about them.
* The file system has directories and regular files, no symbolic links. A path is looked
  up as it is written, so the entries of a file system are meant to be clean paths.
  `filepath.Walk` visits the names of a directory in lexical order and asks `Lstat` for
  each name at the time of the visit.
-/

set_option autoImplicit false
set_option maxRecDepth 100000

namespace Prenamer

/-- Go `string`: a byte sequence, one `Char` per byte. -/
abbrev GoString := List Char

/-- Ways in which the process stops without returning. -/
inductive Abort where
  /-- Stopped by `log.Fatal` with the given message. -/
  | fatal (msg : GoString)
  /-- Runtime panic: index out of range. -/
  | indexOutOfRange
  /-- Runtime panic: slice bounds out of range. -/
  | sliceOutOfRange
  /-- The step budget that this embedding gives to a `for` loop ran out. -/
  | stepLimit
  /-- Runtime panic of `regexp.MustCompile` on a pattern that does not compile. -/
  | regexpPanic
  deriving DecidableEq

/-! ## `strings`, `strconv`, `fmt` -/

/-- Go `strings.LastIndex(s, sep)` for a one-byte separator: the index of the last
occurrence of `c` in `s`, or `-1`. -/
def LastIndex : GoString → Char → Int
  | [], _ => -1
  | x :: xs, c =>
    if 0 ≤ LastIndex xs c then LastIndex xs c + 1
    else if x = c then 0 else -1

/-- Go slice expression `s[:k]`; panics unless `0 ≤ k ≤ len(s)`. -/
def sliceTo (s : GoString) (k : Int) : Except Abort GoString :=
  if 0 ≤ k ∧ k ≤ s.length then .ok (s.take k.toNat) else .error .sliceOutOfRange

/-- Go slice expression `s[k:]`; panics unless `0 ≤ k ≤ len(s)`. -/
def sliceFrom (s : GoString) (k : Int) : Except Abort GoString :=
  if 0 ≤ k ∧ k ≤ s.length then .ok (s.drop k.toNat) else .error .sliceOutOfRange

/-- Go index expression `params[i]` on a match result (`nil` when there was no match). -/
def index (params : Option (List GoString)) (i : Nat) : Except Abort GoString :=
  match params with
  | none => .error .indexOutOfRange
  | some l =>
    match l.get? i with
    | some s => .ok s
    | none => .error .indexOutOfRange

/-- The two errors of `strconv`. -/
inductive NumError where
  | ErrSyntax
  | ErrRange
  deriving DecidableEq

/-- Value of a decimal digit byte. -/
def digitVal (c : Char) : Nat := c.toNat - 48

/-- Reads a run of decimal digits; `none` when a byte is not a digit. -/
def parseDigits : GoString → Nat → Option Nat
  | [], acc => some acc
  | c :: cs, acc => if c.isDigit then parseDigits cs (10 * acc + digitVal c) else none

/-- Largest value of Go `int` (64-bit). -/
def maxInt : Int := 9223372036854775807

/-- Smallest value of Go `int` (64-bit). -/
def minInt : Int := -9223372036854775808

/-- Whether a numeral starts with a minus sign. -/
def isNegative (s : GoString) : Bool :=
  match s with
  | '-' :: _ => true
  | _ => false

/-- A numeral without its leading sign. -/
def stripSign (s : GoString) : GoString :=
  match s with
  | '+' :: r => r
  | '-' :: r => r
  | _ => s

/-- Go `strconv.Atoi`: the value and the error. A syntax error gives value `0`, a range
error gives the nearest representable value. -/
def Atoi (s : GoString) : Int × Option NumError :=
  if stripSign s = [] then (0, some .ErrSyntax) else
  match parseDigits (stripSign s) 0 with
  | none => (0, some .ErrSyntax)
  | some n =>
    if isNegative s then
      if (n : Int) ≤ 9223372036854775808 then (-(n : Int), none) else (minInt, some .ErrRange)
    else
      if (n : Int) ≤ maxInt then ((n : Int), none) else (maxInt, some .ErrRange)

/-- Go `strconv.Itoa`. -/
def Itoa (n : Int) : GoString :=
  if n < 0 then '-' :: Nat.toDigits 10 n.natAbs else Nat.toDigits 10 n.toNat

/-- Pads a digit string on the left with `'0'` up to width `w`. -/
def padZero (w : Nat) (ds : GoString) : GoString :=
  List.replicate (w - ds.length) '0' ++ ds

/-- Go `fmt.Sprintf("%02d", n)`: the sign counts towards the width of two. -/
def fmt02d (n : Int) : GoString :=
  if n < 0 then '-' :: padZero 1 (Nat.toDigits 10 n.natAbs)
  else padZero 2 (Nat.toDigits 10 n.toNat)

/-! ## `regexp` -/

/-- The character classes used by the patterns of the program. -/
inductive CharClass where
  /-- The class `[^/]`. -/
  | notSlash
  /-- The class `\d`. -/
  | digit
  /-- The class `.` (any byte but newline). -/
  | dot
  deriving DecidableEq

/-- Membership of a byte in a class. -/
def CharClass.test : CharClass → Char → Bool
  | .notSlash, c => c != '/'
  | .digit, c => c.isDigit
  | .dot, c => c != '\n'

/-- One item of a compiled pattern. -/
inductive Item where
  /-- A literal string. -/
  | lit (s : GoString)
  /-- A greedy repetition `c*` (`lo = 0`) or `c+` (`lo = 1`), capturing when `cap`. -/
  | rep (c : CharClass) (lo : Nat) (cap : Bool)
  deriving DecidableEq

/-- A compiled pattern of the modelled fragment: a sequence of items. -/
abbrev Regex := List Item

/-- Greedy choice with backtracking: tries the lengths `k, k-1, ..., lo` in this order. -/
def tryFrom {α : Type} (cont : Nat → Option α) (lo : Nat) : Nat → Option α
  | 0 => if lo = 0 then cont 0 else none
  | k + 1 =>
    if lo ≤ k + 1 then
      match cont (k + 1) with
      | some r => some r
      | none => tryFrom cont lo k
    else none

/-- Matches the pattern at the start of `s`: the captured groups and the unread rest. -/
def matchHere : Regex → GoString → Option (List GoString × GoString)
  | [], s => some ([], s)
  | .lit l :: r, s =>
    if l.isPrefixOf s then matchHere r (s.drop l.length) else none
  | .rep c lo cap :: r, s =>
    tryFrom (fun k =>
      match matchHere r (s.drop k) with
      | some (caps, rest) => some (if cap then s.take k :: caps else caps, rest)
      | none => none) lo (s.takeWhile c.test).length

/-- The leftmost match of a compiled pattern: element `0` is the whole match, the
following elements are the groups; `none` stands for the `nil` slice. -/
def findLeftmost (re : Regex) : GoString → Option (List GoString)
  | [] =>
    match matchHere re [] with
    | some (caps, _) => some ([] :: caps)
    | none => none
  | c :: s =>
    match matchHere re (c :: s) with
    | some (caps, rest) => some ((c :: s).take ((c :: s).length - rest.length) :: caps)
    | none => findLeftmost re s

/-- The metacharacters of the pattern syntax (those that `regexp.QuoteMeta` escapes; the
last but two are the braces). -/
def isMeta (c : Char) : Bool :=
  c == '\\' || c == '.' || c == '+' || c == '*' || c == '?' || c == '(' || c == ')' ||
  c == '|' || c == '[' || c == ']' || c == '\x7b' || c == '\x7d' || c == '^' || c == '$'

/-- Reads one of the classes `[^/]`, `\d`, `.` at the start of a pattern. -/
def parseClass : GoString → Option (CharClass × GoString)
  | '[' :: '^' :: '/' :: ']' :: r => some (.notSlash, r)
  | '\\' :: 'd' :: r => some (.digit, r)
  | '.' :: r => some (.dot, r)
  | _ => none

/-- Reads a class followed by `*` or `+`. -/
def parseUnit (cap : Bool) (s : GoString) : Option (Item × GoString) :=
  match parseClass s with
  | some (c, '*' :: r) => some (.rep c 0 cap, r)
  | some (c, '+' :: r) => some (.rep c 1 cap, r)
  | _ => none

/-- A byte that the pattern syntax reads as itself: an ASCII byte that is no
metacharacter. -/
def isPlain (c : Char) : Bool :=
  !isMeta c && decide (c.toNat < 128)

/-- Reads one item of the modelled fragment: a plain byte, a unit, or a unit in
parentheses. A repetition sign after a literal or after a finished item, and any other use
of a metacharacter or of a byte outside ASCII, is outside the fragment. -/
def parseItem : GoString → Option (Item × GoString)
  | [] => none
  | c :: r =>
    if c = '(' then
      match parseUnit true r with
      | some (it, ')' :: r1) => some (it, r1)
      | _ => none
    else if isPlain c then some (.lit [c], r)
    else parseUnit false (c :: r)

/-- Whether an item is a repetition. -/
def Item.isRep : Item → Bool
  | .rep _ _ _ => true
  | .lit _ => false

/-- Reads a whole pattern of the modelled fragment, in at most `n` items; `afterRep` tells
that the item just read was a repetition. A repetition directly after a repetition is
outside the fragment, so that every position at which a repetition may end is followed by
an ASCII byte of the pattern or by the end of the pattern. -/
def parseN : Nat → Bool → GoString → Option Regex
  | _, _, [] => some []
  | 0, _, _ :: _ => none
  | n + 1, afterRep, c :: s =>
    match parseItem (c :: s) with
    | none => none
    | some (it, rest) =>
      if afterRep && it.isRep then none
      else
        match parseN n it.isRep rest with
        | none => none
        | some re => some (it :: re)

/-- The compiled form of a pattern of the modelled fragment; `none` for any other
pattern. Every item takes at least one byte, so the length of the pattern is enough. -/
def parsePattern (pattern : GoString) : Option Regex :=
  parseN pattern.length false pattern

/-- The compiled form of a string of plain bytes: one literal per byte. -/
def litItems (p : GoString) : Regex := p.map (fun c => Item.lit [c])

/-- The answers of package `regexp` on the patterns outside the modelled fragment:
whether a pattern compiles, and the result of `FindStringSubmatch` on a string. -/
structure RegexpLibrary where
  compiles : GoString → Bool
  find : GoString → GoString → Option (List GoString)

/-- Go `regexp.MustCompile(pattern).FindStringSubmatch(s)`; `.ok none` is the `nil` slice
of a pattern that does not match. -/
def FindStringSubmatch (lib : RegexpLibrary) (pattern s : GoString) :
    Except Abort (Option (List GoString)) :=
  match parsePattern pattern with
  | some re => .ok (findLeftmost re s)
  | none => if lib.compiles pattern then .ok (lib.find pattern s) else .error .regexpPanic

/-- Go `match, _ := regexp.MatchString(pattern, s)`: the error of a pattern that does not
compile is dropped and `match` is `false`. -/
def MatchString (lib : RegexpLibrary) (pattern s : GoString) : Bool :=
  match FindStringSubmatch lib pattern s with
  | .ok r => r.isSome
  | .error _ => false

/-! ## Configuration and the library registry -/

/-- One configured library (`LibraryInfo`). -/
structure LibraryInfo where
  Name : GoString
  Path : GoString
  PlexLibraryID : Int
  IsAv : Bool
  IsMovie : Bool
  deriving DecidableEq

/-- Go `map[string]int`, newest binding first. -/
abbrev GoMap := List (GoString × Int)

/-- Go map read `m[k]`: the zero value when the key is absent. -/
def GoMap.get (m : GoMap) (k : GoString) : Int :=
  match m.lookup k with
  | some v => v
  | none => 0

/-- Go map write `m[k] = v`. -/
def GoMap.set (m : GoMap) (k : GoString) (v : Int) : GoMap := (k, v) :: m

/-- The fields of `ConfigFile` read by the classification and pruning code. The other
fields only appear inside the command lines and URLs of the external tools. -/
structure ConfigFile where
  DownloadPathPrefix : GoString
  RemoteDefaultPath : GoString
  Library : List LibraryInfo
  libraryList : GoMap

/-- The loop `for k, v := range Config.Library { Config.libraryList[v.Name] = k + 1 }`,
started at index `k`. -/
def registerFrom : List LibraryInfo → Nat → GoMap → GoMap
  | [], _, m => m
  | v :: rest, k, m => registerFrom rest (k + 1) (m.set v.Name ((k : Int) + 1))

/-- The registry built in `main`: `make(map[string]int)` filled by the loop over
`Config.Library`. -/
def buildLibraryList (library : List LibraryInfo) : GoMap :=
  registerFrom library 0 []

/-- Go index expression `Config.Library[i]`. -/
def indexLibrary (library : List LibraryInfo) (i : Int) : Except Abort LibraryInfo :=
  if i < 0 then .error .indexOutOfRange
  else
    match library.get? i.toNat with
    | some v => .ok v
    | none => .error .indexOutOfRange

/-! ## Paths and the file system -/

/-- Splits a path at every `'/'`. -/
def splitSlash : GoString → List GoString
  | [] => [[]]
  | c :: s =>
    if c = '/' then [] :: splitSlash s
    else
      match splitSlash s with
      | h :: t => (c :: h) :: t
      | [] => [[c]]

/-- One step of `filepath.Clean` on the stack of kept elements (last element first). -/
def cleanStep (rooted : Bool) (stack : List GoString) (e : GoString) : List GoString :=
  if e = [] ∨ e = ['.'] then stack
  else if e = ['.', '.'] then
    match stack with
    | [] => if rooted then [] else [e]
    | top :: below => if top = ['.', '.'] then e :: top :: below else below
  else e :: stack

/-- Go `filepath.Clean` (Unix). -/
def Clean (path : GoString) : GoString :=
  let rooted : Bool := match path with
    | '/' :: _ => true
    | _ => false
  let kept := ((splitSlash path).foldl (cleanStep rooted) []).reverse
  let body := ['/'].intercalate kept
  if rooted then '/' :: body
  else if body = [] then ['.'] else body

/-- Go `filepath.Join` with two elements. -/
def Join (a b : GoString) : GoString :=
  if a ≠ [] then Clean (a ++ '/' :: b)
  else if b ≠ [] then Clean b
  else []

/-- Removes trailing slashes, keeping at least one byte (first loop of `os.basename`). -/
def trimSlashes (s : GoString) : GoString :=
  match s with
  | [] => []
  | c :: rest => c :: (rest.reverse.dropWhile (fun x => x == '/')).reverse

/-- Go `os.basename`, the value of `FileInfo.Name()`. -/
def basename (s : GoString) : GoString :=
  let t := trimSlashes s
  if 0 ≤ LastIndex t.dropLast '/' then t.drop (LastIndex t.dropLast '/' + 1).toNat else t

/-- Go `os.FileInfo`, as far as the program reads it. -/
structure FileInfo where
  name : GoString
  size : Int
  isDir : Bool
  deriving DecidableEq

/-- Errors of the file system calls. -/
inductive Errno where
  /-- The error recognised by `os.IsNotExist`. -/
  | ENOENT
  | ENOTDIR
  | EACCES
  deriving DecidableEq

/-- Directories below a directory: each has a name, its own sub-directories, and is
followed by its siblings (in name order). -/
inductive Forest where
  | nil
  | cons (name : GoString) (children : Forest) (rest : Forest)

/-- The sub-directories of the directory `p`, searched below the directory `path`. -/
def Forest.find (p : GoString) : GoString → Forest → Option Forest
  | _, .nil => none
  | path, .cons name children rest =>
    if Join path name = p then some children
    else
      match Forest.find p (Join path name) children with
      | some f => some f
      | none => Forest.find p path rest

/-- The file system. There are no symbolic links. `tree` holds the directories below the
directory `root` (`none` when `root` is not a directory); `files` maps the path of each
regular file to its size, the first binding of a path counting; on the paths of `faulty`
every call fails with an error other than `ENOENT` (no permission, name too long, ...).
The program never creates, moves or removes a directory during a walk, so the functions
below change `files` only. -/
structure FS where
  root : GoString
  tree : Option Forest
  files : List (GoString × Int)
  faulty : List GoString

/-- The sub-directories of `p` when `p` is a directory. -/
def FS.dirAt (fs : FS) (p : GoString) : Option Forest :=
  match fs.tree with
  | none => none
  | some f => if p = fs.root then some f else Forest.find p fs.root f

/-- Go `os.Lstat` and `os.Stat` (they agree, there being no symbolic links). -/
def FS.stat (fs : FS) (p : GoString) : Except Errno FileInfo :=
  if p ∈ fs.faulty then .error .EACCES
  else if (fs.dirAt p).isSome then .ok { name := basename p, size := 0, isDir := true }
  else if p.getLast? = some '/' then .error .ENOTDIR
  else
    match fs.files.lookup p with
    | some sz => .ok { name := basename p, size := sz, isDir := false }
    | none => .error .ENOENT

/-- The directory part of a path, up to and excluding the last `'/'`. -/
def dirOf (p : GoString) : GoString := p.take (LastIndex p '/').toNat

/-- Removes every binding of a path. -/
def eraseFile (p : GoString) (files : List (GoString × Int)) : List (GoString × Int) :=
  files.filter (fun kv => kv.1 != p)

/-- Go `os.Rename` applied to a regular file; the file system is unchanged when the call
fails. -/
def FS.rename (fs : FS) (src dst : GoString) : FS :=
  match fs.stat src, fs.stat dst with
  | .ok info, .ok dstInfo =>
    if info.isDir ∨ dstInfo.isDir ∨ src = dst then fs
    else { fs with files := (dst, info.size) :: eraseFile dst (eraseFile src fs.files) }
  | .ok info, .error .ENOENT =>
    if info.isDir then fs
    else if dirOf dst = dirOf src ∨ (fs.dirAt (dirOf dst)).isSome then
      { fs with files := (dst, info.size) :: eraseFile src fs.files }
    else fs
  | _, _ => fs

/-- Go `os.Remove` applied to a regular file; the file system is unchanged when the call
fails. -/
def FS.remove (fs : FS) (p : GoString) : FS :=
  match fs.stat p with
  | .ok info => if info.isDir then fs else { fs with files := eraseFile p fs.files }
  | .error _ => fs

/-- Byte-wise lexical order of names. -/
def strLt : GoString → GoString → Bool
  | [], [] => false
  | [], _ :: _ => true
  | _ :: _, [] => false
  | a :: as, b :: bs =>
    if a.toNat < b.toNat then true
    else if b.toNat < a.toNat then false
    else strLt as bs

/-- Inserts a name into a sorted list of distinct names. -/
def insertName (n : GoString) : List GoString → List GoString
  | [] => [n]
  | m :: ms =>
    if strLt n m then n :: m :: ms
    else if n = m then m :: ms
    else m :: insertName n ms

/-- The name of `key` inside the directory `dir`, when `key` lies directly in it. -/
def nameIn (dir key : GoString) : Option GoString :=
  let n := basename key
  if n ≠ [] ∧ '/' ∉ n ∧ n ≠ ['.'] ∧ n ≠ ['.', '.'] ∧ Join dir n = key then some n else none

/-- The names of the regular files of a directory, sorted (the part of `readDirNames`
that changes during a walk; the sub-directories are those of the tree). -/
def FS.fileNames (fs : FS) (dir : GoString) : List GoString :=
  ((fs.files.filter (fun kv => (fs.dirAt kv.1).isNone)).filterMap
    (fun kv => nameIn dir kv.1)).foldr insertName []


/-! ## The world: file system, network, external commands, log -/

/-- What the program does to its environment, in order. -/
inductive Event where
  /-- A call of `os.Rename`. -/
  | rename (src dst : GoString)
  /-- A call of `os.Remove`. -/
  | remove (path : GoString)
  /-- A call of `os.RemoveAll`. -/
  | removeAll (path : GoString)
  /-- A message written with `log.Error`. -/
  | logError (msg : GoString)
  /-- A run of the capture tool on a directory. -/
  | capture (path : GoString)
  /-- A run of the transfer command for a local and a remote path. -/
  | upload (localPath remotePath : GoString)
  deriving DecidableEq

/-- What a call of `(*exec.Cmd).Run` does when the command was not started before. -/
inductive RunOutcome where
  /-- The process ran and exited with status zero: `Run` returns `nil`. -/
  | success
  /-- The process ran and failed: `Run` returns an error, the command counts as started. -/
  | exitError
  /-- No process could be started: `Run` returns an error, the command is not started. -/
  | startError
  deriving DecidableEq

/-- The environment of one run. `regexp` answers for the patterns outside the modelled
fragment; `tmdbTV` and `tmdbMovie` give, for an identifier, the decoded body of the metadata
answer (`none` when the request fails); `transfer` tells what the `i`-th call of `Run` on
the transfer command does if the command was not started before; `trace` records the
events so far. -/
structure World where
  fs : FS
  regexp : RegexpLibrary
  tmdbTV : GoString → Option (List (GoString × GoString))
  tmdbMovie : GoString → Option (List (GoString × GoString))
  transfer : Nat → RunOutcome
  trace : List Event

/-- Performs `os.Rename(src, dst)`; its error is ignored by every caller. -/
def World.rename (w : World) (src dst : GoString) : World :=
  { w with fs := w.fs.rename src dst, trace := w.trace ++ [.rename src dst] }

/-- Performs `os.Remove(path)` on a walked entry; its error is ignored. -/
def World.remove (w : World) (path : GoString) : World :=
  { w with fs := w.fs.remove path, trace := w.trace ++ [.remove path] }

/-- Writes a message with `log.Error`. -/
def World.logError (w : World) (msg : GoString) : World :=
  { w with trace := w.trace ++ [.logError msg] }

/-- Records an event that leaves the modelled file tree as it is. -/
def World.emit (w : World) (e : Event) : World :=
  { w with trace := w.trace ++ [e] }

/-! ## `filepath.Walk` -/

/-- Go `filepath.WalkFunc`, with a state: the entry is either its `FileInfo` or the error
of `Lstat`; the result is the new state and the returned error. -/
abbrev WalkFunc (σ : Type) := GoString → Except Errno FileInfo → σ → Except Abort (σ × Option Errno)

/-- The loop of `walk` over the names of regular files of the directory `path`. -/
def visitFiles {σ : Type} (fsOf : σ → FS) (fn : WalkFunc σ) (path : GoString) :
    List GoString → σ → Except Abort (σ × Option Errno)
  | [], st => .ok (st, none)
  | name :: names, st =>
    match fn (Join path name) ((fsOf st).stat (Join path name)) st with
    | .error a => .error a
    | .ok (st1, some e) => .ok (st1, some e)
    | .ok (st1, none) => visitFiles fsOf fn path names st1

/-- The loop of `walk` over the names of the directory `path`: `pending` are the names of
its regular files still to visit (read when the directory was entered), the forest its
sub-directories still to visit. Names are visited in lexical order: the files below the
name of the next sub-directory, then that sub-directory (its own file names are read
before the function is called on it, its entries are walked after), then the rest. -/
def walkForest {σ : Type} (fsOf : σ → FS) (fn : WalkFunc σ) :
    Forest → GoString → List GoString → σ → Except Abort (σ × Option Errno)
  | .nil, path, pending, st => visitFiles fsOf fn path pending st
  | .cons name children rest, path, pending, st =>
    match visitFiles fsOf fn path (pending.filter (fun n => strLt n name)) st with
    | .error a => .error a
    | .ok (st1, some e) => .ok (st1, some e)
    | .ok (st1, none) =>
      match (fsOf st1).stat (Join path name) with
      | .error e =>
        match fn (Join path name) (.error e) st1 with
        | .error a => .error a
        | .ok (st2, some e2) => .ok (st2, some e2)
        | .ok (st2, none) =>
          walkForest fsOf fn rest path (pending.filter (fun n => strLt name n)) st2
      | .ok info =>
        match fn (Join path name) (.ok info) st1 with
        | .error a => .error a
        | .ok (st2, some e2) => .ok (st2, some e2)
        | .ok (st2, none) =>
          match walkForest fsOf fn children (Join path name)
              ((fsOf st1).fileNames (Join path name)) st2 with
          | .error a => .error a
          | .ok (st3, some e3) => .ok (st3, some e3)
          | .ok (st3, none) =>
            walkForest fsOf fn rest path (pending.filter (fun n => strLt name n)) st3

/-- Go `filepath.Walk(root, fn)`: the final state and the error it returns. -/
def Walk {σ : Type} (fsOf : σ → FS) (root : GoString) (fn : WalkFunc σ) (st : σ) :
    Except Abort (σ × Option Errno) :=
  match (fsOf st).stat root with
  | .error e => fn root (.error e) st
  | .ok info =>
    match (fsOf st).dirAt root with
    | none => fn root (.ok info) st
    | some forest =>
      match fn root (.ok info) st with
      | .error a => .error a
      | .ok (st1, some e) => .ok (st1, some e)
      | .ok (st1, none) => walkForest fsOf fn forest root ((fsOf st).fileNames root) st1


/-! ## The processors -/

/-- Go map read `info[key]` on the decoded metadata answer. -/
def field (info : List (GoString × GoString)) (key : GoString) : GoString :=
  match info.lookup key with
  | some v => v
  | none => []

/-- The function `getTMDbTVTitle`: title and year of a series. -/
def getTMDbTVTitle (w : World) (tmdbID : GoString) : Except Abort (GoString × GoString) :=
  match w.tmdbTV tmdbID with
  | none => .error (.fatal "Cannot get info from TMDb".toList)
  | some info =>
    match sliceTo (field info "first_air_date".toList) 4 with
    | .error a => .error a
    | .ok year => .ok (field info "name".toList, year)

/-- The function `getTMDbMovieTitle`: title and year of a movie. -/
def getTMDbMovieTitle (w : World) (tmdbID : GoString) : Except Abort (GoString × GoString) :=
  match w.tmdbMovie tmdbID with
  | none => .error (.fatal "Cannot get info from TMDb".toList)
  | some info =>
    match sliceTo (field info "release_date".toList) 4 with
    | .error a => .error a
    | .ok year => .ok (field info "title".toList, year)

/-- The pattern `Sprintf("%v/auto/%v/([^/]*)/([^/]*)", Config.DownloadPathPrefix, name)`. -/
def tvInfoPattern (cfg : ConfigFile) (name : GoString) : GoString :=
  cfg.DownloadPathPrefix ++ "/auto/".toList ++ name ++ "/([^/]*)/([^/]*)".toList

/-- The pattern of season and episode in `parseTV`: `S(\d+)E(\d+)`, which the source
writes as the string literal `"S(\\d+)E(\\d+)"`. -/
def episodePattern : GoString := "S(\\d+)E(\\d+)".toList

/-- The compiled form of `episodePattern`. -/
def episodeRegexp : Regex :=
  [.lit ['S'], .rep .digit 1 true, .lit ['E'], .rep .digit 1 true]

/-- A non-empty string of decimal digits. -/
def DigitStr (a : GoString) : Prop := a ≠ [] ∧ ∀ c ∈ a, c.isDigit = true

/-- The value of a string of decimal digits. -/
def decimalValue (a : GoString) : Nat := a.foldl (fun acc c => 10 * acc + digitVal c) 0

/-- The pattern `Sprintf("%v/auto/%v/([^/]*)", Config.DownloadPathPrefix, name)` of
`parseXXX` and `parseMovie`. -/
def itemPattern (cfg : ConfigFile) (name : GoString) : GoString :=
  cfg.DownloadPathPrefix ++ "/auto/".toList ++ name ++ "/([^/]*)".toList

/-- The new name that the walk of `parseTV` gives to a file:
`Sprintf("%vS%02dE%02d.%v", dir, season, episode, name)`. -/
def tvTarget (dir : GoString) (season episode : Int) (name : GoString) : GoString :=
  dir ++ 'S' :: fmt02d season ++ 'E' :: fmt02d episode ++ '.' :: name

/-- The renames that the walk of `parseTV` may issue for the pair `season`, `episode`:
a file `n` of a directory `d` (empty, or ending in `'/'`) moves to
`d ++ "S<season>E<episode>." ++ n`. -/
def IsTvRename (season episode : Int) (ev : Event) : Prop :=
  ∃ d n : GoString, ev = .rename (d ++ n) (tvTarget d season episode n) ∧
    '/' ∉ n ∧ (d = [] ∨ d.getLast? = some '/')

/-- The trace of a world extends `t0` by log messages and renames of the TV form. -/
def TvTrace (season episode : Int) (t0 : List Event) (w : World) : Prop :=
  ∃ evs, w.trace = t0 ++ evs ∧
    ∀ ev ∈ evs, (∃ msg, ev = .logError msg) ∨ IsTvRename season episode ev

/-- The function literal passed to `filepath.Walk` in `parseTV`. -/
def tvWalkFn (season episode : Int) : WalkFunc World := fun path entry w =>
  match entry with
  | .error e => .ok (w, some e)
  | .ok info =>
    if !info.isDir then
      match sliceTo path ((path.length : Int) - info.name.length) with
      | .error a => .error a
      | .ok dir => .ok (w.rename path (tvTarget dir season episode info.name), none)
    else .ok (w, none)

/-- Logs `msg` when `strconv.Atoi` returned an error. -/
def logIfErr (w : World) (err : Option NumError) (msg : GoString) : World :=
  match err with
  | some _ => w.logError msg
  | none => w

/-- The function `parseTV`. -/
def parseTV (cfg : ConfigFile) (filePath name path : GoString) (w : World) :
    Except Abort ((GoString × GoString) × World) :=
  match FindStringSubmatch w.regexp (tvInfoPattern cfg name) filePath with
  | .error a => .error a
  | .ok params =>
    match index params 1, index params 2 with
    | .error a, _ => .error a
    | .ok _, .error a => .error a
    | .ok p1, .ok p2 =>
      let localPath :=
        cfg.DownloadPathPrefix ++ "/auto/".toList ++ name ++ '/' :: p1 ++ '/' :: p2
      match FindStringSubmatch w.regexp episodePattern p2 with
      | .error a => .error a
      | .ok episodeParams =>
        match index episodeParams 1 with
        | .error a => .error a
        | .ok e1 =>
          let season := (Atoi e1).1
          let w1 := logIfErr w (Atoi e1).2 "Cannot get season number".toList
          match index episodeParams 2 with
          | .error a => .error a
          | .ok e2 =>
            let episode := (Atoi e2).1
            let w2 := logIfErr w1 (Atoi e2).2 "Cannot get episode number".toList
            match getTMDbTVTitle w2 p1 with
            | .error a => .error a
            | .ok (title, year) =>
              let remotePath := path ++ '/' :: title ++ " (".toList ++ year ++ ")/S".toList
                ++ fmt02d season ++ "/".toList
              match Walk World.fs localPath (tvWalkFn season episode) w2 with
              | .error a => .error a
              | .ok (w3, some _) =>
                .ok ((localPath, remotePath), w3.logError "TV rename ERROR: ".toList)
              | .ok (w3, none) => .ok ((localPath, remotePath), w3)

/-- The size test of `parseXXX`: `info.Size()/1024/1024 < 100`, with the truncating
division of Go. -/
def isJunkSize (size : Int) : Bool :=
  decide ((size.tdiv 1024).tdiv 1024 < 100)

/-- The function literal passed to `filepath.Walk` in `parseXXX`; the second component of
the state is the variable `counter`. -/
def xxxWalkFn (number : GoString) : WalkFunc (World × Int) := fun path entry st =>
  match entry with
  | .error e => .ok (st, some e)
  | .ok info =>
    if !info.isDir then
      if isJunkSize info.size then .ok ((st.1.remove path, st.2), none)
      else
        match sliceTo path (LastIndex path '/' + 1), sliceFrom path (LastIndex path '.') with
        | .error a, _ => .error a
        | .ok _, .error a => .error a
        | .ok fPath, .ok fileSuffix =>
          match st.1.fs.stat (fPath ++ number ++ fileSuffix) with
          | .error err =>
            if err = .ENOENT then
              .ok ((st.1.rename path (fPath ++ number ++ fileSuffix), st.2), none)
            else
              .ok ((st.1.rename path (fPath ++ number ++ '-' :: Itoa st.2 ++ fileSuffix),
                st.2 + 1), none)
          | .ok _ => .ok (st, none)
    else .ok (st, none)

/-- The function `capture`: one run of the capture tool, whose outcome is only logged. -/
def capture (filePath : GoString) (w : World) : World :=
  w.emit (.capture filePath)

/-- The function `parseXXX`. -/
def parseXXX (cfg : ConfigFile) (filePath name path : GoString) (w : World) :
    Except Abort ((GoString × GoString) × World) :=
  match FindStringSubmatch w.regexp (itemPattern cfg name) filePath with
  | .error a => .error a
  | .ok params =>
    match index params 1 with
    | .error a => .error a
    | .ok number =>
      let localPath := cfg.DownloadPathPrefix ++ "/auto/".toList ++ name ++ '/' :: number
      let remotePath := path ++ '/' :: number
      match Walk (fun st => st.1.fs) localPath (xxxWalkFn number) (w, 1) with
      | .error a => .error a
      | .ok (st, _) => .ok ((localPath, remotePath), capture localPath st.1)

/-- The function `parseMovie`. -/
def parseMovie (cfg : ConfigFile) (filePath name path : GoString) (w : World) :
    Except Abort ((GoString × GoString) × World) :=
  match FindStringSubmatch w.regexp (itemPattern cfg name) filePath with
  | .error a => .error a
  | .ok params =>
    match index params 1 with
    | .error a => .error a
    | .ok p1 =>
      let localPath := cfg.DownloadPathPrefix ++ "/auto/".toList ++ name ++ '/' :: p1
      match getTMDbMovieTitle w p1 with
      | .error a => .error a
      | .ok (title, year) =>
        .ok ((localPath, path ++ '/' :: title ++ " (".toList ++ year ++ ")/".toList), w)

/-- The function `parseLibrary`. -/
def parseLibrary (cfg : ConfigFile) (localPath : GoString) (libInfo : LibraryInfo)
    (w : World) : Except Abort ((GoString × GoString × Int) × World) :=
  if libInfo.IsAv then
    match parseXXX cfg localPath libInfo.Name libInfo.Path w with
    | .error a => .error a
    | .ok ((l, r), w1) => .ok ((l, r, libInfo.PlexLibraryID), w1)
  else if libInfo.IsMovie then
    match parseMovie cfg localPath libInfo.Name libInfo.Path w with
    | .error a => .error a
    | .ok ((l, r), w1) => .ok ((l, r, libInfo.PlexLibraryID), w1)
  else
    match parseTV cfg localPath libInfo.Name libInfo.Path w with
    | .error a => .error a
    | .ok ((l, r), w1) => .ok ((l, r, libInfo.PlexLibraryID), w1)

/-! ## Classification -/

/-- The pattern `Sprintf("%v/auto", Config.DownloadPathPrefix)`. -/
def autoPattern (cfg : ConfigFile) : GoString :=
  cfg.DownloadPathPrefix ++ "/auto".toList

/-- The pattern `Sprintf("%v/auto/([^/]*)", Config.DownloadPathPrefix)`. -/
def typePattern (cfg : ConfigFile) : GoString :=
  cfg.DownloadPathPrefix ++ "/auto/([^/]*)".toList

/-- The pattern `Sprintf("%v/([^/]*)", Config.DownloadPathPrefix)`. -/
def fileNamePattern (cfg : ConfigFile) : GoString :=
  cfg.DownloadPathPrefix ++ "/([^/]*)".toList

/-- The function `parsePath`. -/
def parsePath (cfg : ConfigFile) (filePath : GoString) (fileNumber : Int) (w : World) :
    Except Abort ((GoString × GoString × Int) × World) :=
  let localPath := filePath
  let remotePath := '/' :: cfg.RemoteDefaultPath
  if MatchString w.regexp (autoPattern cfg) localPath then
    match FindStringSubmatch w.regexp (typePattern cfg) localPath with
    | .error a => .error a
    | .ok params =>
      match index params 1 with
      | .error a => .error a
      | .ok libName =>
        if cfg.libraryList.get libName ≠ 0 then
          match indexLibrary cfg.Library (cfg.libraryList.get libName - 1) with
          | .error a => .error a
          | .ok libInfo => parseLibrary cfg localPath libInfo w
        else
          if fileNumber ≠ 1 then
            match FindStringSubmatch w.regexp (fileNamePattern cfg) localPath with
            | .error a => .error a
            | .ok params =>
              match index params 1 with
              | .error a => .error a
              | .ok seg =>
                .ok ((cfg.DownloadPathPrefix ++ '/' :: seg, remotePath ++ '/' :: seg, 0),
                  w.logError "Unknow library".toList)
          else .ok ((localPath, remotePath, 0), w.logError "Unknow library".toList)
  else
    if fileNumber ≠ 1 then
      match FindStringSubmatch w.regexp (fileNamePattern cfg) localPath with
      | .error a => .error a
      | .ok params =>
        match index params 1 with
        | .error a => .error a
        | .ok seg =>
          .ok ((cfg.DownloadPathPrefix ++ '/' :: seg, remotePath ++ '/' :: seg, 0), w)
    else .ok ((localPath, remotePath, 0), w)

/-! ## Transfer and pruning -/

/-- The `for` loop of `cleanUp`, with a step budget. -/
def cleanUpLoop (prefixLen : Nat) : Nat → GoString → World → Except Abort World
  | 0, localPath, w =>
    if localPath.length > prefixLen ∧ LastIndex localPath '/' > 0 then .error .stepLimit
    else .ok w
  | fuel + 1, localPath, w =>
    if localPath.length > prefixLen ∧ LastIndex localPath '/' > 0 then
      match sliceTo localPath (LastIndex localPath '/') with
      | .error a => .error a
      | .ok next => cleanUpLoop prefixLen fuel next (w.emit (.remove localPath))
    else .ok w

/-- The function `cleanUp`. Nothing reads the file tree after it, so its removals are
recorded in the trace and not applied to `fs`. -/
def cleanUp (cfg : ConfigFile) (localPath : GoString) (w : World) : Except Abort World :=
  match sliceTo localPath (LastIndex localPath '/') with
  | .error a => .error a
  | .ok parent =>
    cleanUpLoop cfg.DownloadPathPrefix.length parent.length parent
      (w.emit (.removeAll localPath))

/-- The loop of `upload` over the one `exec.Cmd`: `n` rounds are left, `counter` were made,
`started` tells whether the command was started before, in which case `Run` fails at once
("exec: already started") and nothing is transferred. -/
def uploadLoop (cfg : ConfigFile) (localPath remotePath : GoString) :
    Nat → Nat → Bool → World → Except Abort World
  | 0, _, _, w => .ok w
  | n + 1, counter, true, w =>
    uploadLoop cfg localPath remotePath n (counter + 1) true
      (w.logError "Upload failed: ".toList)
  | n + 1, counter, false, w =>
    match w.transfer counter with
    | .success => cleanUp cfg localPath (w.emit (.upload localPath remotePath))
    | .exitError =>
      uploadLoop cfg localPath remotePath n (counter + 1) true
        ((w.emit (.upload localPath remotePath)).logError "Upload failed: ".toList)
    | .startError =>
      uploadLoop cfg localPath remotePath n (counter + 1) false
        (w.logError "Upload failed: ".toList)

/-- The function `upload`: three rounds at most on one command, `cleanUp` after a
success. -/
def upload (cfg : ConfigFile) (localPath remotePath : GoString) (w : World) :
    Except Abort World :=
  uploadLoop cfg localPath remotePath 3 0 false w

/-- The pattern `Sprintf("%v/.*", Config.DownloadPathPrefix)` of the entry check. -/
def entryPattern (cfg : ConfigFile) : GoString :=
  cfg.DownloadPathPrefix ++ "/.*".toList

/-- The function `main`, from the parsed flags and the decoded configuration on; the
library refresh request that may follow the transfer is left out. The result is the triple
returned by `parsePath` and the final world. -/
def main (config : ConfigFile) (fileNumber : Int) (filePath : GoString) (w : World) :
    Except Abort ((GoString × GoString × Int) × World) :=
  if fileNumber < 1 ∨ filePath = "/".toList then
    .error (.fatal "Error: file number or file path is invalid".toList)
  else
    let cfg : ConfigFile := { config with libraryList := buildLibraryList config.Library }
    if !MatchString w.regexp (entryPattern cfg) filePath then
      .error (.fatal "Error: file path is illegal".toList)
    else
      match parsePath cfg filePath fileNumber w with
      | .error a => .error a
      | .ok ((localPath, remotePath, plexLibID), w1) =>
        match upload cfg localPath remotePath w1 with
        | .error a => .error a
        | .ok w2 => .ok ((localPath, remotePath, plexLibID), w2)


/-! ## Example worlds -/

/-- Decidable equality of results, used to evaluate the program on examples. -/
instance instDecidableEqExcept {ε α : Type} [DecidableEq ε] [DecidableEq α] :
    DecidableEq (Except ε α)
  | .ok a, .ok b => if h : a = b then isTrue (by rw [h]) else isFalse (fun h1 => by cases h1; exact h rfl)
  | .error a, .error b =>
    if h : a = b then isTrue (by rw [h]) else isFalse (fun h1 => by cases h1; exact h rfl)
  | .ok _, .error _ => isFalse (fun h1 => by cases h1)
  | .error _, .ok _ => isFalse (fun h1 => by cases h1)

/-- One mebibyte. -/
def MiB : Int := 1048576

/-- A configuration with download root `/dl` and the libraries `TV`, `Movies`, `Adult`. -/
def exampleConfig : ConfigFile where
  DownloadPathPrefix := "/dl".toList
  RemoteDefaultPath := "default".toList
  Library :=
    [ { Name := "TV".toList, Path := "/lib/tv".toList, PlexLibraryID := 1,
        IsAv := false, IsMovie := false },
      { Name := "Movies".toList, Path := "/lib/movies".toList, PlexLibraryID := 2,
        IsAv := false, IsMovie := true },
      { Name := "Adult".toList, Path := "/lib/adult".toList, PlexLibraryID := 3,
        IsAv := true, IsMovie := false } ]
  libraryList := []

/-- The example configuration after `main` has built the registry. -/
def exampleConfigReady : ConfigFile :=
  { exampleConfig with libraryList := buildLibraryList exampleConfig.Library }

/-- A metadata service that knows the series `12345`. -/
def exampleTV (tmdbID : GoString) : Option (List (GoString × GoString)) :=
  if tmdbID = "12345".toList then
    some [("name".toList, "Great Show".toList), ("first_air_date".toList, "2019-03-01".toList)]
  else none

/-- A metadata service that knows the movie `9001`. -/
def exampleMovie (tmdbID : GoString) : Option (List (GoString × GoString)) :=
  if tmdbID = "9001".toList then
    some [("title".toList, "Cool Film".toList), ("release_date".toList, "2021-07-09".toList)]
  else none

/-- A `regexp` that compiles every pattern outside the modelled fragment and finds no
match for it. The examples reach it with `/dl(1)/auto` and `/dl(1)/([^/]*)` on the string
`/dl(1)/auto/Foo/x` only: both compile, the group `(1)` stands for the byte `1`, and the
string contains no `/dl1/`. -/
def exampleRegexp : RegexpLibrary where
  compiles := fun _ => true
  find := fun _ _ => none

/-- A world around a given file system: both metadata services, a transfer that succeeds
at once, an empty trace. -/
def worldOf (fs : FS) : World where
  fs := fs
  regexp := exampleRegexp
  tmdbTV := exampleTV
  tmdbMovie := exampleMovie
  transfer := fun _ => .success
  trace := []

/-- A configuration whose download root `/dl(1)` contains metacharacters. -/
def parenConfig : ConfigFile where
  DownloadPathPrefix := "/dl(1)".toList
  RemoteDefaultPath := "default".toList
  Library := []
  libraryList := []

/-- Scenario A: the item is the single file `/dl/auto/TV/12345/Show.S02E05.mkv`. -/
def fsScenarioA : FS where
  root := "/dl/auto/TV/12345".toList
  tree := some Forest.nil
  files := [("/dl/auto/TV/12345/Show.S02E05.mkv".toList, 700 * MiB)]
  faulty := []

/-- A series item whose trailing segment carries no season and episode. -/
def fsNoEpisode : FS where
  root := "/dl/auto/TV/12345".toList
  tree := some Forest.nil
  files := [("/dl/auto/TV/12345/Show.mkv".toList, 700 * MiB)]
  faulty := []

/-- An item directory of the adult-content library holding two files of 150 MiB. -/
def fsTwoLarge : FS where
  root := "/dl/auto/Adult/AB-100".toList
  tree := some Forest.nil
  files :=
    [ ("/dl/auto/Adult/AB-100/a.mkv".toList, 150 * MiB),
      ("/dl/auto/Adult/AB-100/b.mkv".toList, 150 * MiB) ]
  faulty := []

/-- A series item whose season number does not fit in an `int`. -/
def fsHugeSeason : FS where
  root := "/dl/auto/TV/12345".toList
  tree := some Forest.nil
  files := [("/dl/auto/TV/12345/S99999999999999999999E01.mkv".toList, 700 * MiB)]
  faulty := []

/-- A file system without any entry. -/
def fsEmpty : FS where
  root := []
  tree := none
  files := []
  faulty := []


/-! ## Size filter -/

theorem isJunkSize_iff (n : Int) (hn : 0 ≤ n) : isJunkSize n = true ↔ n < 104857600 := by
  unfold isJunkSize
  rw [Int.tdiv_eq_ediv hn (by norm_num)]
  have h2 : 0 ≤ n / 1024 := by omega
  rw [Int.tdiv_eq_ediv h2 (by norm_num)]
  simp only [decide_eq_true_eq]
  omega

/-- C6: for every non-negative size `n` in bytes the size test of the adult-content
processor holds exactly when `n < 104857600` (100 MiB); a file of exactly 104857600 bytes is
kept, one of 104857599 bytes or of 99 MiB is deleted; the walk function deletes a regular
file below the threshold and issues no removal for a file of 100 MiB or more. -/
theorem size_filter_threshold (n : Int) (hn : 0 ≤ n) :
    (isJunkSize n = true ↔ n < 104857600) ∧
    isJunkSize 104857600 = false ∧ isJunkSize 104857599 = true ∧
    isJunkSize (99 * 1048576) = true ∧
    (∀ (number path name : GoString) (st : World × Int),
      (n < 104857600 →
        xxxWalkFn number path (.ok { name := name, size := n, isDir := false }) st
          = .ok ((st.1.remove path, st.2), none)) ∧
      (104857600 ≤ n → ∀ r,
        xxxWalkFn number path (.ok { name := name, size := n, isDir := false }) st = .ok r →
        ∀ p, Event.remove p ∈ r.1.1.trace → Event.remove p ∈ st.1.trace)) := by
  refine ⟨isJunkSize_iff n hn, by decide, by decide, by decide, ?_⟩
  intro number path name st
  constructor
  · intro h
    have hj : isJunkSize n = true := (isJunkSize_iff n hn).2 h
    simp [xxxWalkFn, hj]
  · intro h r hr p hp
    have hj : isJunkSize n = false := by
      cases hb : isJunkSize n with
      | false => rfl
      | true => have := (isJunkSize_iff n hn).1 hb; omega
    simp only [xxxWalkFn, hj] at hr
    simp only [Bool.not_false, if_true, Bool.false_eq_true, if_false] at hr
    split at hr
    · cases hr
    · cases hr
    · split at hr
      · split at hr
        · cases hr
          simpa [World.rename] using hp
        · cases hr
          simpa [World.rename] using hp
      · cases hr
        exact hp

/-- Witness of `size_filter_threshold` at a file of 5 bytes. -/
theorem size_filter_threshold_witness :
    (0 : Int) ≤ 5 ∧ (isJunkSize 5 = true ↔ (5 : Int) < 104857600) :=
  ⟨by decide, (size_filter_threshold 5 (by decide)).1⟩


/-! ## Library registry -/

theorem registerFrom_append (a b : List LibraryInfo) (k : Nat) (m : GoMap) :
    registerFrom (a ++ b) k m = registerFrom b (k + a.length) (registerFrom a k m) := by
  induction a generalizing k m with
  | nil => simp [registerFrom]
  | cons v rest ih =>
    show registerFrom (rest ++ b) (k + 1) (m.set v.Name ((k : Int) + 1)) = _
    rw [ih, List.length_cons, show k + 1 + rest.length = k + (rest.length + 1) by omega]
    rfl

theorem GoMap.get_set_self (m : GoMap) (k : GoString) (v : Int) : (m.set k v).get k = v := by
  simp [GoMap.get, GoMap.set, List.lookup]

theorem GoMap.get_set_other (m : GoMap) (k s : GoString) (v : Int) (h : k ≠ s) :
    (m.set k v).get s = m.get s := by
  have h1 : (s == k) = false := by
    simp only [beq_eq_false_iff_ne, ne_eq]
    exact fun e => h e.symm
  simp [GoMap.get, GoMap.set, List.lookup, h1]

theorem get_registerFrom_of_absent (L : List LibraryInfo) (s : GoString) (k : Nat) (m : GoMap)
    (h : ∀ v ∈ L, v.Name ≠ s) : (registerFrom L k m).get s = m.get s := by
  induction L generalizing k m with
  | nil => rfl
  | cons v rest ih =>
    simp only [registerFrom]
    rw [ih _ _ (fun u hu => h u (List.mem_cons_of_mem _ hu))]
    exact GoMap.get_set_other _ _ _ _ (h v (List.mem_cons_self _ _))

theorem exists_last_named (L : List LibraryInfo) (s : GoString) (h : ∃ v ∈ L, v.Name = s) :
    ∃ pre v post, L = pre ++ v :: post ∧ v.Name = s ∧ ∀ u ∈ post, u.Name ≠ s := by
  induction L with
  | nil => obtain ⟨v, hv, _⟩ := h; cases hv
  | cons x rest ih =>
    by_cases hr : ∃ v ∈ rest, v.Name = s
    · obtain ⟨pre, v, post, e, hv, hp⟩ := ih hr
      exact ⟨x :: pre, v, post, by rw [e]; rfl, hv, hp⟩
    · obtain ⟨v, hv, hs⟩ := h
      rcases List.mem_cons.1 hv with e | hm
      · subst e
        exact ⟨[], v, rest, rfl, hs, fun u hu e => hr ⟨u, hu, e⟩⟩
      · exact absurd ⟨v, hm, hs⟩ hr

theorem get_buildLibraryList_split (pre post : List LibraryInfo) (v : LibraryInfo)
    (hp : ∀ u ∈ post, u.Name ≠ v.Name) :
    (buildLibraryList (pre ++ v :: post)).get v.Name = (pre.length : Int) + 1 := by
  unfold buildLibraryList
  rw [registerFrom_append]
  simp only [registerFrom]
  rw [get_registerFrom_of_absent _ _ _ _ hp, GoMap.get_set_self]
  simp

theorem get_buildLibraryList_absent (L : List LibraryInfo) (s : GoString)
    (h : ¬ ∃ v ∈ L, v.Name = s) : (buildLibraryList L).get s = 0 := by
  unfold buildLibraryList
  rw [get_registerFrom_of_absent L s 0 [] (fun v hv e => h ⟨v, hv, e⟩)]
  rfl

/-- C8: in the registry built from the ordered library list `L`, the lookup of a name `s`
is non-zero exactly when some entry of `L` is named `s`; then `lookup - 1` is a valid index
of `L`, it is the index of the last entry named `s`, the indexing `Library[lookup - 1]` does
not go out of range, and `parsePath` hands that entry to `parseLibrary`. -/
theorem registry_lookup_last (L : List LibraryInfo) (s : GoString) :
    ((buildLibraryList L).get s ≠ 0 ↔ ∃ v ∈ L, v.Name = s) ∧
    ((buildLibraryList L).get s ≠ 0 →
      ∃ (i : Nat) (v : LibraryInfo), (buildLibraryList L).get s = (i : Int) + 1 ∧
        i < L.length ∧ L.get? i = some v ∧ v.Name = s ∧
        (∀ j u, i < j → L.get? j = some u → u.Name ≠ s) ∧
        indexLibrary L ((buildLibraryList L).get s - 1) = .ok v ∧
        ∀ (cfg : ConfigFile) (filePath : GoString) (fileNumber : Int) (w : World)
          (params : Option (List GoString)),
          cfg.Library = L → cfg.libraryList = buildLibraryList L →
          MatchString w.regexp (autoPattern cfg) filePath = true →
          FindStringSubmatch w.regexp (typePattern cfg) filePath = .ok params →
          index params 1 = .ok s →
          parsePath cfg filePath fileNumber w = parseLibrary cfg filePath v w) := by
  by_cases hex : ∃ v ∈ L, v.Name = s
  · obtain ⟨pre, v, post, e, hv, hp⟩ := exists_last_named L s hex
    subst hv
    have hget : (buildLibraryList L).get v.Name = (pre.length : Int) + 1 := by
      rw [e]; exact get_buildLibraryList_split pre post v hp
    have hne : (buildLibraryList L).get v.Name ≠ 0 := by rw [hget]; omega
    have hidx : L.get? pre.length = some v := by
      rw [e, List.get?_eq_getElem?, List.getElem?_append_right (le_refl _)]
      simp
    have hlib : indexLibrary L ((buildLibraryList L).get v.Name - 1) = .ok v := by
      rw [hget]
      have h0 : ¬ ((pre.length : Int) + 1 - 1 < 0) := by omega
      have h1 : ((pre.length : Int) + 1 - 1).toNat = pre.length := by omega
      simp only [indexLibrary, h0, if_false, h1, hidx]
    refine ⟨⟨fun _ => hex, fun _ => hne⟩, fun _ => ⟨pre.length, v, hget, ?_, hidx, rfl, ?_, hlib, ?_⟩⟩
    · rw [e]; simp
    · intro j u hj hu
      rw [e] at hu
      have hj2 : pre.length + 1 ≤ j := hj
      obtain ⟨d, rfl⟩ := Nat.exists_eq_add_of_le hj2
      have : (pre ++ v :: post).get? (pre.length + 1 + d) = post.get? d := by
        rw [List.get?_eq_getElem?, List.getElem?_append_right (by omega)]
        have : pre.length + 1 + d - pre.length = d + 1 := by omega
        rw [this, List.get?_eq_getElem?]
        simp
      rw [this] at hu
      exact hp u (List.get?_mem hu)
    · intro cfg filePath fileNumber w params hL hM hmatch hfind hindex
      simp only [parsePath, hmatch, if_true, hfind, hindex, hM, hL, hne, ne_eq,
        not_false_eq_true, hlib]
  · have h0 := get_buildLibraryList_absent L s hex
    exact ⟨⟨fun h => absurd h0 h, fun h => absurd h hex⟩, fun h => absurd h0 h⟩

/-! ## Dispatch -/

/-- C3: for every library entry `parseLibrary` runs exactly one processor, chosen by fixed
precedence: the adult-content processor when `IsAv` holds (whatever `IsMovie` is), otherwise
the movie processor when `IsMovie` holds, otherwise the TV processor; its result (paths,
world and failure alike) is that of the chosen processor, with the library identifier
`PlexLibraryID` of the entry added. -/
theorem dispatch_precedence (cfg : ConfigFile) (localPath : GoString) (libInfo : LibraryInfo)
    (w : World) :
    parseLibrary cfg localPath libInfo w =
      Except.map (fun r => ((r.1.1, r.1.2, libInfo.PlexLibraryID), r.2))
        (if libInfo.IsAv = true then parseXXX cfg localPath libInfo.Name libInfo.Path w
         else if libInfo.IsMovie = true then parseMovie cfg localPath libInfo.Name libInfo.Path w
         else parseTV cfg localPath libInfo.Name libInfo.Path w) := by
  unfold parseLibrary
  split_ifs
  · cases parseXXX cfg localPath libInfo.Name libInfo.Path w <;> rfl
  · cases parseMovie cfg localPath libInfo.Name libInfo.Path w <;> rfl
  · cases parseTV cfg localPath libInfo.Name libInfo.Path w <;> rfl


/-! ## `strings.LastIndex` and `os.basename` -/

theorem not_mem_of_LastIndex_neg (s : GoString) (c : Char) (h : LastIndex s c < 0) : c ∉ s := by
  induction s with
  | nil => simp
  | cons x xs ih =>
    unfold LastIndex at h
    split_ifs at h with h1 h2
    · omega
    · omega
    · simp only [List.mem_cons, not_or]
      exact ⟨fun e => h2 e.symm, ih (by omega)⟩

theorem LastIndex_of_not_mem (s : GoString) (c : Char) (h : c ∉ s) : LastIndex s c = -1 := by
  induction s with
  | nil => rfl
  | cons x xs ih =>
    simp only [List.mem_cons, not_or] at h
    unfold LastIndex
    rw [ih h.2]
    have hx : ¬ x = c := fun e => h.1 e.symm
    simp [hx]

theorem LastIndex_append_cons (a b : GoString) (c : Char) (h : c ∉ b) :
    LastIndex (a ++ c :: b) c = a.length := by
  induction a with
  | nil =>
    simp only [List.nil_append, List.length_nil]
    unfold LastIndex
    rw [LastIndex_of_not_mem b c h]
    simp
  | cons x xs ih =>
    simp only [List.cons_append, List.length_cons]
    unfold LastIndex
    rw [ih]
    have : (0 : Int) ≤ (xs.length : Int) := by omega
    simp [this]

theorem LastIndex_split (s : GoString) (c : Char) (h : 0 ≤ LastIndex s c) :
    ∃ a b, s = a ++ c :: b ∧ c ∉ b ∧ LastIndex s c = a.length := by
  induction s with
  | nil => simp [LastIndex] at h
  | cons x xs ih =>
    by_cases h1 : 0 ≤ LastIndex xs c
    · obtain ⟨a, b, e, hb, hl⟩ := ih h1
      refine ⟨x :: a, b, by rw [e]; rfl, hb, ?_⟩
      unfold LastIndex
      simp only [h1, if_true, hl, List.length_cons]
      omega
    · have hn : c ∉ xs := not_mem_of_LastIndex_neg xs c (by omega)
      unfold LastIndex at h
      simp only [h1, if_false] at h
      split_ifs at h with h2
      · subst h2
        refine ⟨[], xs, rfl, hn, ?_⟩
        unfold LastIndex
        simp [h1]
      · omega

theorem LastIndex_lt_length (s : GoString) (c : Char) : LastIndex s c < s.length := by
  by_cases h : 0 ≤ LastIndex s c
  · obtain ⟨a, b, e, _, hl⟩ := LastIndex_split s c h
    rw [hl]
    have : s.length = a.length + (b.length + 1) := by rw [e]; simp
    omega
  · omega

theorem trimSlashes_of_no_trailing (p : GoString) (h : p.getLast? ≠ some '/') :
    trimSlashes p = p := by
  cases p with
  | nil => rfl
  | cons c rest =>
    unfold trimSlashes
    rcases List.eq_nil_or_concat rest with e | ⟨init, last, e⟩
    · subst e; rfl
    · rw [List.concat_eq_append] at e
      subst e
      have hl : last ≠ '/' := by
        intro hl
        apply h
        subst hl
        have e2 : c :: (init ++ ['/']) = (c :: init) ++ ['/'] := rfl
        rw [e2, List.getLast?_append]
        rfl
      simp [List.dropWhile, hl]

/-- The name of a path without trailing slash is what follows its last slash. -/
theorem basename_split (p : GoString) (h : p.getLast? ≠ some '/') :
    ∃ d, p = d ++ basename p ∧ '/' ∉ basename p ∧ (d = [] ∨ d.getLast? = some '/') := by
  unfold basename
  rw [trimSlashes_of_no_trailing p h]
  rcases List.eq_nil_or_concat p with e | ⟨init, last, e⟩
  · subst e
    exact ⟨[], by simp [LastIndex], by simp [LastIndex], Or.inl rfl⟩
  · rw [List.concat_eq_append] at e
    subst e
    have hl : last ≠ '/' := by
      intro hl
      apply h
      simp [hl, List.getLast?_append]
    simp only [List.dropLast_concat]
    by_cases h1 : 0 ≤ LastIndex init '/'
    · obtain ⟨a, b, e, hb, hlen⟩ := LastIndex_split init '/' h1
      rw [if_pos h1, hlen]
      have ht : ((a.length : Int) + 1).toNat = a.length + 1 := by omega
      rw [ht, e]
      have hd : List.drop (a.length + 1) ((a ++ '/' :: b) ++ [last]) = b ++ [last] := by
        have : (a ++ '/' :: b) ++ [last] = (a ++ ['/']) ++ (b ++ [last]) := by simp
        rw [this]
        have hl2 : a.length + 1 = (a ++ ['/']).length := by simp
        rw [hl2, List.drop_left]
      rw [hd]
      refine ⟨a ++ ['/'], by simp, ?_, Or.inr (by simp [List.getLast?_append])⟩
      simp only [List.mem_append, List.mem_singleton, not_or]
      exact ⟨hb, fun e => hl e.symm⟩
    · rw [if_neg h1]
      refine ⟨[], by simp, ?_, Or.inl rfl⟩
      have hn : '/' ∉ init := not_mem_of_LastIndex_neg init '/' (by omega)
      simp only [List.mem_append, List.mem_singleton, not_or]
      exact ⟨hn, fun e => hl e.symm⟩


/-! ## The walk -/

theorem visitFiles_spec {σ : Type} (fsOf : σ → FS) (fn : WalkFunc σ) (Inv : σ → Prop)
    (hfn : ∀ p st, Inv st → ∃ r, fn p ((fsOf st).stat p) st = .ok r ∧ Inv r.1)
    (path : GoString) (names : List GoString) (st : σ) (hi : Inv st) :
    ∃ r, visitFiles fsOf fn path names st = .ok r ∧ Inv r.1 := by
  induction names generalizing st with
  | nil => exact ⟨(st, none), rfl, hi⟩
  | cons name names ih =>
    obtain ⟨⟨st1, e⟩, hr, hir⟩ := hfn (Join path name) st hi
    unfold visitFiles
    rw [hr]
    cases e with
    | some e => exact ⟨(st1, some e), rfl, hir⟩
    | none => exact ih st1 hir

theorem walkForest_spec {σ : Type} (fsOf : σ → FS) (fn : WalkFunc σ) (Inv : σ → Prop)
    (hfn : ∀ p st, Inv st → ∃ r, fn p ((fsOf st).stat p) st = .ok r ∧ Inv r.1)
    (forest : Forest) (path : GoString) (pending : List GoString) (st : σ) (hi : Inv st) :
    ∃ r, walkForest fsOf fn forest path pending st = .ok r ∧ Inv r.1 := by
  induction forest generalizing path pending st with
  | nil =>
    unfold walkForest
    exact visitFiles_spec fsOf fn Inv hfn path pending st hi
  | cons name children rest ihc ihr =>
    unfold walkForest
    obtain ⟨⟨st1, e1⟩, h1, hi1⟩ :=
      visitFiles_spec fsOf fn Inv hfn path (pending.filter (fun n => strLt n name)) st hi
    rw [h1]
    cases e1 with
    | some e => exact ⟨(st1, some e), rfl, hi1⟩
    | none =>
      obtain ⟨⟨st2, e2⟩, h2, hi2⟩ := hfn (Join path name) st1 hi1
      cases hs : (fsOf st1).stat (Join path name) with
      | error e =>
        rw [hs] at h2
        simp only [hs, h2]
        cases e2 with
        | some e => exact ⟨(st2, some e), rfl, hi2⟩
        | none => exact ihr path _ st2 hi2
      | ok info =>
        rw [hs] at h2
        simp only [hs, h2]
        cases e2 with
        | some e => exact ⟨(st2, some e), rfl, hi2⟩
        | none =>
          obtain ⟨⟨st3, e3⟩, h3, hi3⟩ :=
            ihc (Join path name) ((fsOf st1).fileNames (Join path name)) st2 hi2
          simp only [h3]
          cases e3 with
          | some e => exact ⟨(st3, some e), rfl, hi3⟩
          | none => exact ihr path _ st3 hi3

/-- A walk whose function never panics on what `Lstat` reports returns, and keeps every
invariant that the function keeps. -/
theorem Walk_spec {σ : Type} (fsOf : σ → FS) (fn : WalkFunc σ) (Inv : σ → Prop)
    (hfn : ∀ p st, Inv st → ∃ r, fn p ((fsOf st).stat p) st = .ok r ∧ Inv r.1)
    (root : GoString) (st : σ) (hi : Inv st) :
    ∃ r, Walk fsOf root fn st = .ok r ∧ Inv r.1 := by
  obtain ⟨⟨st1, e1⟩, h1, hi1⟩ := hfn root st hi
  unfold Walk
  cases hs : (fsOf st).stat root with
  | error e =>
    rw [hs] at h1
    simp only [hs]
    exact ⟨(st1, e1), h1, hi1⟩
  | ok info =>
    rw [hs] at h1
    simp only [hs]
    cases hd : (fsOf st).dirAt root with
    | none =>
      simp only [hd]
      exact ⟨(st1, e1), h1, hi1⟩
    | some forest =>
      simp only [hd, h1]
      cases e1 with
      | some e => exact ⟨(st1, some e), rfl, hi1⟩
      | none => exact walkForest_spec fsOf fn Inv hfn forest root _ st1 hi1

theorem stat_file (fs : FS) (p : GoString) (info : FileInfo)
    (h : fs.stat p = .ok info) (hd : info.isDir = false) :
    info.name = basename p ∧ p.getLast? ≠ some '/' := by
  unfold FS.stat at h
  split_ifs at h with h1 h2 h3
  · cases h
    simp at hd
  · cases hl : fs.files.lookup p with
    | none => rw [hl] at h; cases h
    | some sz =>
      rw [hl] at h
      cases h
      exact ⟨rfl, h3⟩

theorem sliceTo_basename (d n : GoString) :
    sliceTo (d ++ n) (((d ++ n).length : Int) - n.length) = .ok d := by
  have hlen : (((d ++ n).length : Int) - n.length) = (d.length : Int) := by
    simp
  rw [hlen]
  unfold sliceTo
  have h1 : (0 : Int) ≤ d.length ∧ (d.length : Int) ≤ ((d ++ n).length : Int) := by
    constructor
    · omega
    · simp
  rw [if_pos h1]
  simp

/-- On a regular file the walk function of `parseTV` issues exactly one rename, to the
same directory, with the season and episode put before the whole name. -/
theorem tvWalkFn_file (season episode : Int) (p : GoString) (w : World) (info : FileInfo)
    (h : w.fs.stat p = .ok info) (hd : info.isDir = false) :
    ∃ d, p = d ++ info.name ∧ info.name = basename p ∧ '/' ∉ info.name ∧
      (d = [] ∨ d.getLast? = some '/') ∧
      tvWalkFn season episode p (.ok info) w
        = .ok (w.rename p (tvTarget d season episode info.name), none) := by
  obtain ⟨hn, hl⟩ := stat_file w.fs p info h hd
  obtain ⟨d, hp, hns, hdd⟩ := basename_split p hl
  rw [← hn] at hp hns
  refine ⟨d, hp, hn, hns, hdd, ?_⟩
  unfold tvWalkFn
  simp only [hd, Bool.not_false, if_true]
  have : sliceTo p ((p.length : Int) - info.name.length) = .ok d := by
    conv_lhs => rw [hp]
    exact sliceTo_basename d info.name
  rw [this]


theorem TvTrace.refl (season episode : Int) (w : World) : TvTrace season episode w.trace w :=
  ⟨[], by simp, fun _ h => by cases h⟩

theorem TvTrace.snoc (season episode : Int) (t0 : List Event) (w w1 : World) (ev : Event)
    (h : TvTrace season episode t0 w) (ht : w1.trace = w.trace ++ [ev])
    (hev : (∃ msg, ev = .logError msg) ∨ IsTvRename season episode ev) :
    TvTrace season episode t0 w1 := by
  obtain ⟨evs, he, hall⟩ := h
  refine ⟨evs ++ [ev], by rw [ht, he, List.append_assoc], ?_⟩
  intro x hx
  rcases List.mem_append.1 hx with hx | hx
  · exact hall x hx
  · rw [List.mem_singleton.1 hx]; exact hev

theorem TvTrace.logIfErr (season episode : Int) (t0 : List Event) (w : World)
    (err : Option NumError) (msg : GoString) (h : TvTrace season episode t0 w) :
    TvTrace season episode t0 (logIfErr w err msg) := by
  cases err with
  | none => exact h
  | some e => exact TvTrace.snoc season episode t0 w _ _ h rfl (Or.inl ⟨msg, rfl⟩)

theorem tvWalkFn_keeps (season episode : Int) (t0 : List Event) (p : GoString) (w : World)
    (hi : TvTrace season episode t0 w) :
    ∃ r, tvWalkFn season episode p (w.fs.stat p) w = .ok r ∧ TvTrace season episode t0 r.1 := by
  cases hs : w.fs.stat p with
  | error e => exact ⟨(w, some e), rfl, hi⟩
  | ok info =>
    cases hd : info.isDir with
    | true => exact ⟨(w, none), by simp [tvWalkFn, hd], hi⟩
    | false =>
      obtain ⟨d, hp, _, hns, hdd, hrun⟩ := tvWalkFn_file season episode p w info hs hd
      refine ⟨_, hrun, ?_⟩
      refine TvTrace.snoc season episode t0 w _ _ hi rfl (Or.inr ⟨d, info.name, ?_, hns, hdd⟩)
      rw [← hp]

theorem getTMDbTVTitle_logIfErr (w : World) (err : Option NumError) (msg id : GoString) :
    getTMDbTVTitle (logIfErr w err msg) id = getTMDbTVTitle w id := by
  cases err <;> rfl

theorem logIfErr_trace (w : World) (err : Option NumError) (msg : GoString) :
    (logIfErr w err msg).trace =
      w.trace ++ (if err ≠ none then [Event.logError msg] else []) := by
  cases err <;> simp [logIfErr, World.logError]

/-- When the two patterns of `parseTV` match and the metadata lookup answers, `parseTV`
returns; the paths are those built from the captured segments, its events are log
messages and renames of the TV form, and a number that `Atoi` rejects is logged. -/
theorem parseTV_run (cfg : ConfigFile) (filePath name path m p1 p2 m1 a b t y : GoString)
    (more : List GoString) (w : World)
    (hinfo : FindStringSubmatch w.regexp (tvInfoPattern cfg name) filePath
      = .ok (some (m :: p1 :: p2 :: more)))
    (hep : FindStringSubmatch w.regexp episodePattern p2 = .ok (some [m1, a, b]))
    (hres : getTMDbTVTitle w p1 = .ok (t, y)) :
    ∃ (w1 : World) (evs : List Event), parseTV cfg filePath name path w =
        .ok ((cfg.DownloadPathPrefix ++ "/auto/".toList ++ name ++ '/' :: p1 ++ '/' :: p2,
          path ++ '/' :: t ++ " (".toList ++ y ++ ")/S".toList ++ fmt02d (Atoi a).1
            ++ "/".toList), w1) ∧
      w1.trace = w.trace ++ evs ∧
      (∀ ev ∈ evs, (∃ msg, ev = .logError msg) ∨ IsTvRename (Atoi a).1 (Atoi b).1 ev) ∧
      ((Atoi a).2 ≠ none → Event.logError "Cannot get season number".toList ∈ evs) ∧
      ((Atoi b).2 ≠ none → Event.logError "Cannot get episode number".toList ∈ evs) := by
  have hw2 : TvTrace (Atoi a).1 (Atoi b).1 w.trace
      (logIfErr (logIfErr w (Atoi a).2 "Cannot get season number".toList) (Atoi b).2
        "Cannot get episode number".toList) :=
    TvTrace.logIfErr _ _ _ _ _ _ (TvTrace.logIfErr _ _ _ _ _ _ (TvTrace.refl _ _ w))
  have hw2t : (logIfErr (logIfErr w (Atoi a).2 "Cannot get season number".toList) (Atoi b).2
        "Cannot get episode number".toList).trace = w.trace ++
      ((if (Atoi a).2 ≠ none then [Event.logError "Cannot get season number".toList] else [])
        ++ (if (Atoi b).2 ≠ none then [Event.logError "Cannot get episode number".toList]
          else [])) := by
    rw [logIfErr_trace, logIfErr_trace, List.append_assoc]
  have hfin : ∀ w3 : World, TvTrace (Atoi a).1 (Atoi b).1 w.trace w3 →
      (∃ evs, w3.trace = (logIfErr (logIfErr w (Atoi a).2 "Cannot get season number".toList)
        (Atoi b).2 "Cannot get episode number".toList).trace ++ evs) →
      ∃ evs : List Event, w3.trace = w.trace ++ evs ∧
        (∀ ev ∈ evs, (∃ msg, ev = .logError msg) ∨ IsTvRename (Atoi a).1 (Atoi b).1 ev) ∧
        ((Atoi a).2 ≠ none → Event.logError "Cannot get season number".toList ∈ evs) ∧
        ((Atoi b).2 ≠ none → Event.logError "Cannot get episode number".toList ∈ evs) := by
    intro w3 ⟨evs, he, hall⟩ ⟨evs2, he2⟩
    refine ⟨evs, he, hall, ?_⟩
    rw [hw2t, List.append_assoc, he] at he2
    have hc := List.append_cancel_left he2
    rw [hc]
    constructor
    · intro h
      simp [h]
    · intro h
      simp [h]
  obtain ⟨⟨w3, e3⟩, hwalk, hi3⟩ :=
    Walk_spec World.fs (tvWalkFn (Atoi a).1 (Atoi b).1)
      (fun x => TvTrace (Atoi a).1 (Atoi b).1 w.trace x ∧
        ∃ evs, x.trace = (logIfErr (logIfErr w (Atoi a).2 "Cannot get season number".toList)
          (Atoi b).2 "Cannot get episode number".toList).trace ++ evs)
      (fun p st hst => by
        obtain ⟨r, h1, h2⟩ := tvWalkFn_keeps (Atoi a).1 (Atoi b).1 w.trace p st hst.1
        obtain ⟨r0, h3, h4⟩ := tvWalkFn_keeps (Atoi a).1 (Atoi b).1 st.trace p st (TvTrace.refl _ _ st)
        rw [h1] at h3
        cases h3
        refine ⟨r, h1, h2, ?_⟩
        obtain ⟨evs, he⟩ := hst.2
        obtain ⟨evs2, he2, _⟩ := h4
        exact ⟨evs ++ evs2, by rw [he2, he, List.append_assoc]⟩)
      (cfg.DownloadPathPrefix ++ "/auto/".toList ++ name ++ '/' :: p1 ++ '/' :: p2)
      (logIfErr (logIfErr w (Atoi a).2 "Cannot get season number".toList) (Atoi b).2
        "Cannot get episode number".toList) ⟨hw2, [], by simp⟩
  have hres2 : getTMDbTVTitle (logIfErr (logIfErr w (Atoi a).2 "Cannot get season number".toList)
      (Atoi b).2 "Cannot get episode number".toList) p1 = .ok (t, y) := by
    rw [getTMDbTVTitle_logIfErr, getTMDbTVTitle_logIfErr, hres]
  unfold parseTV
  simp only [hinfo, hep, index, List.get?, hres2, hwalk]
  cases e3 with
  | none =>
    obtain ⟨evs, h1, h2, h3, h4⟩ := hfin w3 hi3.1 hi3.2
    exact ⟨w3, evs, rfl, h1, h2, h3, h4⟩
  | some e =>
    have hi4 : TvTrace (Atoi a).1 (Atoi b).1 w.trace (w3.logError "TV rename ERROR: ".toList) :=
      TvTrace.snoc _ _ _ w3 _ _ hi3.1 rfl (Or.inl ⟨_, rfl⟩)
    obtain ⟨evs0, he⟩ := hi3.2
    have he2 : w3.trace = _ := he
    obtain ⟨evs, h1, h2, h3, h4⟩ := hfin _ hi4
      ⟨evs0 ++ [Event.logError "TV rename ERROR: ".toList], by
        show w3.trace ++ [Event.logError "TV rename ERROR: ".toList] = _
        rw [he2, List.append_assoc]⟩
    exact ⟨_, evs, rfl, h1, h2, h3, h4⟩

/-! ## Patterns -/

theorem tryFrom_some {α : Type} (cont : Nat → Option α) (lo n : Nat) (r : α)
    (h : tryFrom cont lo n = some r) : ∃ k, lo ≤ k ∧ k ≤ n ∧ cont k = some r := by
  induction n with
  | zero =>
    unfold tryFrom at h
    split_ifs at h with h0
    exact ⟨0, by omega, le_refl _, h⟩
  | succ n ih =>
    unfold tryFrom at h
    split_ifs at h with h0
    cases hc : cont (n + 1) with
    | some x =>
      rw [hc] at h
      cases h
      exact ⟨n + 1, h0, le_refl _, hc⟩
    | none =>
      rw [hc] at h
      obtain ⟨k, h1, h2, h3⟩ := ih h
      exact ⟨k, h1, by omega, h3⟩

theorem tryFrom_top {α : Type} (cont : Nat → Option α) (lo n : Nat) (r : α)
    (hlo : lo ≤ n) (h : cont n = some r) : tryFrom cont lo n = some r := by
  cases n with
  | zero =>
    have : lo = 0 := by omega
    simp [tryFrom, this, h]
  | succ n => simp [tryFrom, hlo, h]

theorem take_takeWhile_all (p : Char → Bool) (l : GoString) (k : Nat)
    (h : k ≤ (l.takeWhile p).length) : ∀ c ∈ l.take k, p c = true := by
  induction l generalizing k with
  | nil => simp
  | cons x xs ih =>
    cases k with
    | zero => simp
    | succ k =>
      by_cases hx : p x = true
      · simp only [List.takeWhile_cons, hx, if_true, List.length_cons] at h
        intro c hc
        simp only [List.take_succ_cons, List.mem_cons] at hc
        rcases hc with e | hc
        · rw [e]; exact hx
        · exact ih k (by omega) c hc
      · simp [List.takeWhile_cons, hx] at h

theorem matchHere_episode (s : GoString) (caps : List GoString) (rest : GoString)
    (h : matchHere episodeRegexp s = some (caps, rest)) :
    ∃ a b, caps = [a, b] ∧ DigitStr a ∧ DigitStr b := by
  unfold episodeRegexp at h
  unfold matchHere at h
  split_ifs at h with hS
  unfold matchHere at h
  obtain ⟨k, hk1, hk2, hc⟩ := tryFrom_some _ _ _ _ h
  cases hm : matchHere [Item.lit ['E'], Item.rep CharClass.digit 1 true]
      (List.drop k (List.drop ['S'].length s)) with
  | none => rw [hm] at hc; cases hc
  | some r =>
    obtain ⟨caps1, rest1⟩ := r
    rw [hm] at hc
    simp only [if_true, Option.some.injEq, Prod.mk.injEq] at hc
    unfold matchHere at hm
    split_ifs at hm with hE
    unfold matchHere at hm
    obtain ⟨k2, hk3, hk4, hc2⟩ := tryFrom_some _ _ _ _ hm
    simp only [matchHere, if_true, Option.some.injEq, Prod.mk.injEq] at hc2
    refine ⟨_, _, by rw [← hc.1, ← hc2.1], ⟨?_, take_takeWhile_all _ _ k hk2⟩,
      ⟨?_, take_takeWhile_all _ _ k2 hk4⟩⟩
    · intro e
      have hl := congrArg List.length e
      rw [List.length_take] at hl
      have : k ≤ (List.drop ['S'].length s).length :=
        le_trans hk2 (List.takeWhile_prefix _).length_le
      simp only [List.length_nil] at hl
      omega
    · intro e
      have hl := congrArg List.length e
      rw [List.length_take] at hl
      have : k2 ≤ (List.drop ['E'].length
          (List.drop k (List.drop ['S'].length s))).length :=
        le_trans hk4 (List.takeWhile_prefix _).length_le
      simp only [List.length_nil] at hl
      omega

/-- The groups captured by the compiled episode pattern are non-empty digit strings. -/
theorem episode_groups (seg m1 a b : GoString)
    (h : findLeftmost episodeRegexp seg = some [m1, a, b]) : DigitStr a ∧ DigitStr b := by
  induction seg with
  | nil =>
    unfold findLeftmost at h
    cases hm : matchHere episodeRegexp [] with
    | none => rw [hm] at h; cases h
    | some r =>
      obtain ⟨caps, rest⟩ := r
      rw [hm] at h
      obtain ⟨a1, b1, e, ha, hb⟩ := matchHere_episode _ _ _ hm
      subst e
      simp only [Option.some.injEq, List.cons.injEq, and_true] at h
      rw [← h.2.1, ← h.2.2]
      exact ⟨ha, hb⟩
  | cons c s ih =>
    unfold findLeftmost at h
    cases hm : matchHere episodeRegexp (c :: s) with
    | none => rw [hm] at h; exact ih h
    | some r =>
      obtain ⟨caps, rest⟩ := r
      rw [hm] at h
      obtain ⟨a1, b1, e, ha, hb⟩ := matchHere_episode _ _ _ hm
      subst e
      simp only [Option.some.injEq, List.cons.injEq, and_true] at h
      rw [← h.2.1, ← h.2.2]
      exact ⟨ha, hb⟩

/-- The episode pattern is in the modelled fragment. -/
theorem FindStringSubmatch_episode (lib : RegexpLibrary) (s : GoString) :
    FindStringSubmatch lib episodePattern s = .ok (findLeftmost episodeRegexp s) := by
  have h : parsePattern episodePattern = some episodeRegexp := by decide
  simp only [FindStringSubmatch, h]

theorem episode_groups_of_find (lib : RegexpLibrary) (seg m1 a b : GoString)
    (h : FindStringSubmatch lib episodePattern seg = .ok (some [m1, a, b])) :
    DigitStr a ∧ DigitStr b := by
  rw [FindStringSubmatch_episode] at h
  exact episode_groups seg m1 a b (by injection h)

theorem parseDigits_digits (l : GoString) (acc : Nat) (h : ∀ c ∈ l, c.isDigit = true) :
    parseDigits l acc = some (l.foldl (fun acc c => 10 * acc + digitVal c) acc) := by
  induction l generalizing acc with
  | nil => rfl
  | cons c cs ih =>
    unfold parseDigits
    rw [if_pos (h c (List.mem_cons_self _ _))]
    exact ih _ (fun x hx => h x (List.mem_cons_of_mem _ hx))

/-- On a digit string `strconv.Atoi` has no syntax error: it gives the decimal value, or,
with a range error, the largest `int`. -/
theorem Atoi_digits (a : GoString) (h : DigitStr a) :
    Atoi a =
      if (decimalValue a : Int) ≤ maxInt then ((decimalValue a : Int), none)
      else (maxInt, some NumError.ErrRange) := by
  obtain ⟨hne, hall⟩ := h
  cases a with
  | nil => exact absurd rfl hne
  | cons c cs =>
    have hc : c.isDigit = true := hall c (List.mem_cons_self _ _)
    have hminus : c ≠ '-' := by
      intro e; rw [e] at hc; exact absurd hc (by decide)
    have hplus : c ≠ '+' := by
      intro e; rw [e] at hc; exact absurd hc (by decide)
    have hn := parseDigits_digits (c :: cs) 0 hall
    have h1 : isNegative (c :: cs) = false := by
      unfold isNegative
      split
      · rename_i heq
        injection heq with h1 h2
        exact absurd h1 hminus
      · rfl
    have h2 : stripSign (c :: cs) = c :: cs := by
      unfold stripSign
      split
      · rename_i heq
        injection heq with h1 h2
        exact absurd h1 hplus
      · rename_i heq
        injection heq with h1 h2
        exact absurd h1 hminus
      · rfl
    unfold Atoi decimalValue
    simp only [h1, h2, hn]
    simp

theorem Atoi_digits_nonneg (a : GoString) (h : DigitStr a) :
    0 ≤ (Atoi a).1 ∧ ((Atoi a).2 ≠ none → Atoi a = (9223372036854775807, some .ErrRange)) := by
  rw [Atoi_digits a h]
  split_ifs with h1
  · exact ⟨by simp, fun h => absurd rfl h⟩
  · exact ⟨by decide, fun _ => rfl⟩

/-- On a digit string `strconv.Atoi` fails exactly when the value exceeds the largest
`int`; the value is kept when it fits. -/
theorem Atoi_digits_value (a : GoString) (h : DigitStr a) :
    ((Atoi a).2 ≠ none ↔ maxInt < (decimalValue a : Int)) ∧
    ((Atoi a).2 = none → (Atoi a).1 = (decimalValue a : Int)) := by
  rw [Atoi_digits a h]
  split_ifs with h1
  · exact ⟨⟨fun h => absurd rfl h, fun h => by omega⟩, fun _ => rfl⟩
  · exact ⟨⟨fun _ => by omega, fun _ => by simp⟩, fun h => by simp at h⟩

/-! ## The TV processor -/

theorem toDigitsCore_length_pos (b fuel n : Nat) (ds : List Char) (hf : 0 < fuel) :
    ds.length + 1 ≤ (Nat.toDigitsCore b fuel n ds).length := by
  induction fuel generalizing n ds with
  | zero => omega
  | succ f ih =>
    unfold Nat.toDigitsCore
    simp only
    split_ifs with h0
    · simp
    · cases f with
      | zero => simp [Nat.toDigitsCore]
      | succ g =>
        have := ih (n / b) (Nat.digitChar (n % b) :: ds) (by omega)
        simp only [List.length_cons] at this
        omega

theorem fmt02d_small (k : Nat) (h : k < 10) : fmt02d k = '0' :: Nat.toDigits 10 k := by
  interval_cases k <;> rfl

theorem fmt02d_large (k : Nat) (h : 10 ≤ k) : fmt02d k = Nat.toDigits 10 k := by
  have h0 : ¬ ((k : Int) < 0) := by omega
  have hlen : 2 ≤ (Nat.toDigits 10 k).length := by
    unfold Nat.toDigits Nat.toDigitsCore
    simp only
    have hq : ¬ (k / 10 = 0) := by omega
    rw [if_neg hq]
    have := toDigitsCore_length_pos 10 k (k / 10) [Nat.digitChar (k % 10)] (by omega)
    simpa using this
  unfold fmt02d padZero
  rw [if_neg h0, Int.toNat_ofNat]
  have : 2 - (Nat.toDigits 10 k).length = 0 := by omega
  rw [this]
  rfl

theorem tvTarget_eq (d : GoString) (season episode : Int) (n : GoString) :
    tvTarget d season episode n =
      d ++ "S".toList ++ fmt02d season ++ "E".toList ++ fmt02d episode ++ ".".toList ++ n := by
  simp [tvTarget]

/-- C1: for every remote root `path`, resolved title `t` and year `y`, and every trailing
segment whose `S<digits>E<digits>` match yields the season digits `a`, `parseTV` returns,
and the remote path is exactly `path ++ "/" ++ t ++ " (" ++ y ++ ")/S" ++ pad2(season) ++ "/"`
with `season = Atoi(a) ≥ 0`; `pad2` writes a number in decimal with a leading zero when it
is below ten (season 3 gives `03`, season 12 gives `12`). The two patterns are the strings
that the code compiles; `hinfo` and `hep` are what `regexp` answers for them, `p1` and `p2`
being elements 1 and 2 of the first answer and `more` its further groups, if any. -/
theorem parseTV_remote_path (cfg : ConfigFile)
    (filePath name path m p1 p2 m1 a b t y : GoString) (more : List GoString) (w : World)
    (hinfo : FindStringSubmatch w.regexp (tvInfoPattern cfg name) filePath
      = .ok (some (m :: p1 :: p2 :: more)))
    (hep : FindStringSubmatch w.regexp episodePattern p2 = .ok (some [m1, a, b]))
    (hres : getTMDbTVTitle w p1 = .ok (t, y)) :
    (∃ w1, parseTV cfg filePath name path w =
      .ok ((cfg.DownloadPathPrefix ++ "/auto/".toList ++ name ++ "/".toList ++ p1
          ++ "/".toList ++ p2,
        path ++ "/".toList ++ t ++ " (".toList ++ y ++ ")/S".toList
          ++ fmt02d (Atoi a).1 ++ "/".toList), w1)) ∧
    0 ≤ (Atoi a).1 ∧
    (∀ k : Nat, k < 10 → fmt02d k = '0' :: Nat.toDigits 10 k) ∧
    (∀ k : Nat, 10 ≤ k → fmt02d k = Nat.toDigits 10 k) ∧
    fmt02d 3 = "03".toList ∧ fmt02d 12 = "12".toList := by
  refine ⟨?_, (Atoi_digits_nonneg a (episode_groups_of_find w.regexp p2 m1 a b hep).1).1,
    fmt02d_small, fmt02d_large, by decide, by decide⟩
  obtain ⟨w1, _, h, _⟩ := parseTV_run cfg filePath name path m p1 p2 m1 a b t y more w hinfo hep hres
  refine ⟨w1, ?_⟩
  rw [h]
  simp

/-- Witness of `parseTV_remote_path`: Scenario A. -/
theorem parseTV_remote_path_witness :
    FindStringSubmatch (worldOf fsScenarioA).regexp (tvInfoPattern exampleConfig "TV".toList)
        "/dl/auto/TV/12345/Show.S02E05.mkv".toList
      = .ok (some ["/dl/auto/TV/12345/Show.S02E05.mkv".toList, "12345".toList,
          "Show.S02E05.mkv".toList]) ∧
    FindStringSubmatch (worldOf fsScenarioA).regexp episodePattern "Show.S02E05.mkv".toList
      = .ok (some ["S02E05".toList, "02".toList, "05".toList]) ∧
    getTMDbTVTitle (worldOf fsScenarioA) "12345".toList
      = .ok ("Great Show".toList, "2019".toList) ∧
    "/lib/tv".toList ++ "/".toList ++ "Great Show".toList ++ " (".toList ++ "2019".toList
        ++ ")/S".toList ++ fmt02d (Atoi "02".toList).1 ++ "/".toList
      = "/lib/tv/Great Show (2019)/S02/".toList ∧
    ∃ w1, parseTV exampleConfig "/dl/auto/TV/12345/Show.S02E05.mkv".toList
        "TV".toList "/lib/tv".toList (worldOf fsScenarioA) =
      .ok ((exampleConfig.DownloadPathPrefix ++ "/auto/".toList ++ "TV".toList ++ "/".toList
          ++ "12345".toList ++ "/".toList ++ "Show.S02E05.mkv".toList,
        "/lib/tv".toList ++ "/".toList ++ "Great Show".toList ++ " (".toList
        ++ "2019".toList ++ ")/S".toList ++ fmt02d (Atoi "02".toList).1 ++ "/".toList), w1) :=
  ⟨by decide, by decide, by decide, by decide,
    (parseTV_remote_path exampleConfig "/dl/auto/TV/12345/Show.S02E05.mkv".toList "TV".toList
      "/lib/tv".toList "/dl/auto/TV/12345/Show.S02E05.mkv".toList "12345".toList
      "Show.S02E05.mkv".toList "S02E05".toList "02".toList "05".toList "Great Show".toList
      "2019".toList [] (worldOf fsScenarioA) (by decide) (by decide) (by decide)).1⟩

/-- C2: when `parseTV` runs (patterns matched with season digits `a` and episode digits `b`,
metadata resolved), every event of its walk that is not a log message is a rename of a file
`d ++ n` (`n` the base name, free of `'/'`; `d` empty or ending in `'/'`) to
`d ++ "S" ++ pad2(season) ++ "E" ++ pad2(episode) ++ "." ++ n`, with the one pair
`season = Atoi(a)`, `episode = Atoi(b)` for all files; and on every regular file that
`Lstat` reports, with path `p` and name `n`, the walk function issues exactly this rename,
`d` being `p` with its trailing `n` removed. -/
theorem parseTV_rename_targets (cfg : ConfigFile)
    (filePath name path m p1 p2 m1 a b t y : GoString) (more : List GoString) (w : World)
    (hinfo : FindStringSubmatch w.regexp (tvInfoPattern cfg name) filePath
      = .ok (some (m :: p1 :: p2 :: more)))
    (hep : FindStringSubmatch w.regexp episodePattern p2 = .ok (some [m1, a, b]))
    (hres : getTMDbTVTitle w p1 = .ok (t, y)) :
    (∃ res w1 evs, parseTV cfg filePath name path w = .ok (res, w1) ∧
      w1.trace = w.trace ++ evs ∧
      ∀ ev ∈ evs, (∃ msg, ev = .logError msg) ∨
        ∃ d n : GoString, ev = .rename (d ++ n)
            (d ++ "S".toList ++ fmt02d (Atoi a).1 ++ "E".toList ++ fmt02d (Atoi b).1
              ++ ".".toList ++ n) ∧
          '/' ∉ n ∧ (d = [] ∨ d.getLast? = some '/')) ∧
    (∀ (p : GoString) (w0 : World) (info : FileInfo),
      w0.fs.stat p = .ok info → info.isDir = false →
      ∃ d, p = d ++ info.name ∧ info.name = basename p ∧ '/' ∉ info.name ∧
        (d = [] ∨ d.getLast? = some '/') ∧
        tvWalkFn (Atoi a).1 (Atoi b).1 p (.ok info) w0 =
          .ok (w0.rename p (d ++ "S".toList ++ fmt02d (Atoi a).1 ++ "E".toList
            ++ fmt02d (Atoi b).1 ++ ".".toList ++ info.name), none)) := by
  constructor
  · obtain ⟨w1, evs, h, he, hall, _⟩ :=
      parseTV_run cfg filePath name path m p1 p2 m1 a b t y more w hinfo hep hres
    refine ⟨_, w1, evs, h, he, ?_⟩
    intro ev hev
    rcases hall ev hev with hl | ⟨d, n, h1, h2, h3⟩
    · exact Or.inl hl
    · exact Or.inr ⟨d, n, by rw [h1, tvTarget_eq], h2, h3⟩
  · intro p w0 info hs hd
    obtain ⟨d, h1, h2, h3, h4, h5⟩ := tvWalkFn_file (Atoi a).1 (Atoi b).1 p w0 info hs hd
    exact ⟨d, h1, h2, h3, h4, by rw [h5, tvTarget_eq]⟩

/-- Witness of `parseTV_rename_targets`: Scenario A, where the one file
`Show.S02E05.mkv` becomes `S02E05.Show.S02E05.mkv`. -/
theorem parseTV_rename_targets_witness :
    Except.map (fun r => r.2.trace)
        (parseTV exampleConfig "/dl/auto/TV/12345/Show.S02E05.mkv".toList "TV".toList
          "/lib/tv".toList (worldOf fsScenarioA))
      = .ok [Event.rename "/dl/auto/TV/12345/Show.S02E05.mkv".toList
          "/dl/auto/TV/12345/S02E05.Show.S02E05.mkv".toList] ∧
    ∃ res w1 evs, parseTV exampleConfig "/dl/auto/TV/12345/Show.S02E05.mkv".toList
        "TV".toList "/lib/tv".toList (worldOf fsScenarioA) = .ok (res, w1) ∧
      w1.trace = (worldOf fsScenarioA).trace ++ evs ∧
      ∀ ev ∈ evs, (∃ msg, ev = .logError msg) ∨
        ∃ d n : GoString, ev = .rename (d ++ n)
            (d ++ "S".toList ++ fmt02d (Atoi "02".toList).1 ++ "E".toList
              ++ fmt02d (Atoi "05".toList).1 ++ ".".toList ++ n) ∧
          '/' ∉ n ∧ (d = [] ∨ d.getLast? = some '/') :=
  ⟨by decide,
    (parseTV_rename_targets exampleConfig "/dl/auto/TV/12345/Show.S02E05.mkv".toList
      "TV".toList "/lib/tv".toList "/dl/auto/TV/12345/Show.S02E05.mkv".toList "12345".toList
      "Show.S02E05.mkv".toList "S02E05".toList "02".toList "05".toList "Great Show".toList
      "2019".toList [] (worldOf fsScenarioA) (by decide) (by decide) (by decide)).1⟩

/-- C10, as the code has it by design: for a TV item whose info pattern matches (segments
`p1`, `p2`), whose metadata lookup answers, and whose trailing segment `p2` has a match of
`S<digits>E<digits>` (season digits `a`, episode digits `b`) of which a number cannot be
parsed, `parseTV` does not fail. A digit string cannot be parsed exactly when its decimal
value exceeds `9223372036854775807`, the largest `int`. `parseTV` returns; each failure is
logged (`Cannot get season number`, `Cannot get episode number`); processing continues
with `9223372036854775807` in place of a number that could not be parsed and with the
decimal value of a number that could; the remote path ends in `S` ++ pad2(season) ++ `/`,
where pad2 of a number that could not be parsed is `9223372036854775807`; and every event
of the run is a log message or the rename of a file `d ++ n` (`n` the base name, `d` its
directory with the slash) to `d ++ "S" ++ pad2(season) ++ "E" ++ pad2(episode) ++ "." ++ n`. -/
theorem parseTV_number_failures (cfg : ConfigFile)
    (filePath name path m p1 p2 m1 a b t y : GoString) (more : List GoString) (w : World)
    (hinfo : FindStringSubmatch w.regexp (tvInfoPattern cfg name) filePath
      = .ok (some (m :: p1 :: p2 :: more)))
    (hep : FindStringSubmatch w.regexp episodePattern p2 = .ok (some [m1, a, b]))
    (hres : getTMDbTVTitle w p1 = .ok (t, y))
    (hfail : (Atoi a).2 ≠ none ∨ (Atoi b).2 ≠ none) :
    ((Atoi a).2 ≠ none ↔ (9223372036854775807 : Int) < decimalValue a) ∧
    ((Atoi b).2 ≠ none ↔ (9223372036854775807 : Int) < decimalValue b) ∧
    (Atoi a).1 = (if (9223372036854775807 : Int) < decimalValue a then 9223372036854775807
      else (decimalValue a : Int)) ∧
    (Atoi b).1 = (if (9223372036854775807 : Int) < decimalValue b then 9223372036854775807
      else (decimalValue b : Int)) ∧
    ((Atoi a).2 ≠ none → fmt02d (Atoi a).1 = "9223372036854775807".toList) ∧
    ((Atoi b).2 ≠ none → fmt02d (Atoi b).1 = "9223372036854775807".toList) ∧
    ∃ (w1 : World) (evs : List Event), parseTV cfg filePath name path w =
        .ok ((cfg.DownloadPathPrefix ++ "/auto/".toList ++ name ++ "/".toList ++ p1
            ++ "/".toList ++ p2,
          path ++ "/".toList ++ t ++ " (".toList ++ y ++ ")/S".toList
            ++ fmt02d (Atoi a).1 ++ "/".toList), w1) ∧
      w1.trace = w.trace ++ evs ∧
      ((Atoi a).2 ≠ none → Event.logError "Cannot get season number".toList ∈ evs) ∧
      ((Atoi b).2 ≠ none → Event.logError "Cannot get episode number".toList ∈ evs) ∧
      ∀ ev ∈ evs, (∃ msg, ev = .logError msg) ∨
        ∃ d n : GoString, ev = .rename (d ++ n)
            (d ++ "S".toList ++ fmt02d (Atoi a).1 ++ "E".toList ++ fmt02d (Atoi b).1
              ++ ".".toList ++ n) ∧
          '/' ∉ n ∧ (d = [] ∨ d.getLast? = some '/') := by
  have _ := hfail
  obtain ⟨ha, hb⟩ := episode_groups_of_find w.regexp p2 m1 a b hep
  obtain ⟨w1, evs, h, he, hall, hl1, hl2⟩ :=
    parseTV_run cfg filePath name path m p1 p2 m1 a b t y more w hinfo hep hres
  have hmax : maxInt = 9223372036854775807 := rfl
  have hva : (Atoi a).1 = (if (9223372036854775807 : Int) < decimalValue a
      then 9223372036854775807 else (decimalValue a : Int)) := by
    rw [Atoi_digits a ha, hmax]
    split_ifs <;> first | rfl | omega
  have hvb : (Atoi b).1 = (if (9223372036854775807 : Int) < decimalValue b
      then 9223372036854775807 else (decimalValue b : Int)) := by
    rw [Atoi_digits b hb, hmax]
    split_ifs <;> first | rfl | omega
  refine ⟨(Atoi_digits_value a ha).1, (Atoi_digits_value b hb).1, hva, hvb, ?_, ?_,
    w1, evs, ?_, he, hl1, hl2, ?_⟩
  · intro hne
    rw [(Atoi_digits_nonneg a ha).2 hne]
    decide
  · intro hne
    rw [(Atoi_digits_nonneg b hb).2 hne]
    decide
  · rw [h]
    simp
  · intro ev hev
    rcases hall ev hev with hl | ⟨d, n, h1, h2, h3⟩
    · exact Or.inl hl
    · exact Or.inr ⟨d, n, by rw [h1, tvTarget_eq], h2, h3⟩

/-- Witness of `parseTV_number_failures`: a season of twenty nines. -/
theorem parseTV_number_failures_witness :
    FindStringSubmatch (worldOf fsHugeSeason).regexp (tvInfoPattern exampleConfig "TV".toList)
        "/dl/auto/TV/12345/S99999999999999999999E01.mkv".toList
      = .ok (some ["/dl/auto/TV/12345/S99999999999999999999E01.mkv".toList, "12345".toList,
          "S99999999999999999999E01.mkv".toList]) ∧
    FindStringSubmatch (worldOf fsHugeSeason).regexp episodePattern
        "S99999999999999999999E01.mkv".toList
      = .ok (some ["S99999999999999999999E01".toList, "99999999999999999999".toList,
          "01".toList]) ∧
    (Atoi "99999999999999999999".toList).2 ≠ none ∧
    fmt02d (Atoi "99999999999999999999".toList).1 = "9223372036854775807".toList :=
  ⟨by decide, by decide, by decide,
    (parseTV_number_failures exampleConfig
      "/dl/auto/TV/12345/S99999999999999999999E01.mkv".toList "TV".toList "/lib/tv".toList
      "/dl/auto/TV/12345/S99999999999999999999E01.mkv".toList "12345".toList
      "S99999999999999999999E01.mkv".toList "S99999999999999999999E01".toList
      "99999999999999999999".toList "01".toList "Great Show".toList "2019".toList []
      (worldOf fsHugeSeason) (by decide) (by decide) (by decide)
      (Or.inl (by decide))).2.2.2.2.1 (by decide)⟩

/-- Counterexample to C10 as stated: without a season/episode match `parseTV` fails with a
panic instead of continuing with zeros, and a season that does not fit in `int` gives the
remote path `.../S9223372036854775807/` and the rename prefix `S9223372036854775807E01.`,
not `S00` and `S00E00.`. -/
theorem parseTV_zero_default_fails :
    Except.map (fun r => r.1)
        (parseTV exampleConfig "/dl/auto/TV/12345/Show.mkv".toList "TV".toList
          "/lib/tv".toList (worldOf fsNoEpisode))
      = .error .indexOutOfRange ∧
    Except.map (fun r => (r.1.2, r.2.trace))
        (parseTV exampleConfig "/dl/auto/TV/12345/S99999999999999999999E01.mkv".toList
          "TV".toList "/lib/tv".toList (worldOf fsHugeSeason))
      = .ok ("/lib/tv/Great Show (2019)/S9223372036854775807/".toList,
          [Event.logError "Cannot get season number".toList,
           Event.rename "/dl/auto/TV/12345/S99999999999999999999E01.mkv".toList
            "/dl/auto/TV/12345/S9223372036854775807E01.S99999999999999999999E01.mkv".toList]) := by
  constructor <;> decide

/-! ## Classification of paths -/

theorem parseItem_lit (c : Char) (r : GoString) (h : isPlain c = true) :
    parseItem (c :: r) = some (.lit [c], r) := by
  have hp : c ≠ '(' := by
    intro e; rw [e] at h; exact absurd h (by decide)
  simp [parseItem, hp, h]

theorem parseN_lits (p : GoString) (hp : ∀ c ∈ p, isPlain c = true) (n : Nat)
    (rest : GoString) :
    parseN (p.length + n) false (p ++ rest)
      = (parseN n false rest).map (fun re => litItems p ++ re) := by
  induction p with
  | nil =>
    simp only [List.length_nil, Nat.zero_add, List.nil_append, litItems, List.map_nil]
    cases parseN n false rest <;> rfl
  | cons c cs ih =>
    have hc : isPlain c = true := hp c (List.mem_cons_self _ _)
    have e : (c :: cs).length + n = (cs.length + n) + 1 := by simp; omega
    rw [e]
    simp only [List.cons_append, parseN, parseItem_lit c _ hc, List.append_eq, Item.isRep,
      Bool.and_false, Bool.false_eq_true, if_false]
    rw [ih (fun x hx => hp x (List.mem_cons_of_mem _ hx))]
    cases parseN n false rest <;> rfl

/-- A pattern that continues a string of plain bytes compiles to the literals of that
string followed by the compiled rest. -/
theorem parsePattern_lits (p k : GoString) (hp : ∀ c ∈ p, isPlain c = true) :
    parsePattern (p ++ k) = (parsePattern k).map (fun re => litItems p ++ re) := by
  unfold parsePattern
  rw [List.length_append]
  exact parseN_lits p hp k.length k

theorem matchHere_lit (l : GoString) (r : Regex) (s : GoString) :
    matchHere (.lit l :: r) (l ++ s) = matchHere r s := by
  have h : l.isPrefixOf (l ++ s) = true := List.isPrefixOf_iff_prefix.2 (List.prefix_append l s)
  simp only [matchHere, h, if_true, List.drop_left]

theorem matchHere_lits (p : GoString) (re : Regex) (s : GoString) :
    matchHere (litItems p ++ re) (p ++ s) = matchHere re s := by
  induction p with
  | nil => rfl
  | cons c cs ih =>
    have e : litItems (c :: cs) ++ re = Item.lit [c] :: (litItems cs ++ re) := rfl
    have e2 : c :: cs ++ s = [c] ++ (cs ++ s) := rfl
    rw [e, e2, matchHere_lit, ih]

theorem matchHere_lits_inv (p : GoString) (re : Regex) (t : GoString)
    (h : (matchHere (litItems p ++ re) t).isSome = true) :
    ∃ s, t = p ++ s ∧ (matchHere re s).isSome = true := by
  induction p generalizing t with
  | nil => exact ⟨t, rfl, h⟩
  | cons c cs ih =>
    have e : litItems (c :: cs) ++ re = Item.lit [c] :: (litItems cs ++ re) := rfl
    rw [e] at h
    by_cases h1 : [c].isPrefixOf t = true
    · obtain ⟨x, hx⟩ := List.isPrefixOf_iff_prefix.1 h1
      simp only [matchHere, h1, if_true] at h
      rw [← hx, List.drop_left] at h
      obtain ⟨s, hs, hm⟩ := ih x h
      exact ⟨s, by rw [← hx, hs]; rfl, hm⟩
    · simp only [matchHere, h1, if_false] at h
      cases h

theorem takeWhile_segment (seg tail : GoString) (hseg : '/' ∉ seg)
    (htail : tail = [] ∨ ∃ r, tail = '/' :: r) :
    (seg ++ tail).takeWhile CharClass.notSlash.test = seg := by
  induction seg with
  | nil =>
    rcases htail with e | ⟨r, e⟩
    · subst e; rfl
    · subst e; simp [CharClass.test]
  | cons c cs ih =>
    simp only [List.mem_cons, not_or] at hseg
    have hc : CharClass.notSlash.test c = true := by
      simp only [CharClass.test, bne_iff_ne, ne_eq]
      exact fun e => hseg.1 e.symm
    simp only [List.cons_append, List.takeWhile_cons, hc, if_true, ih hseg.2]

/-- The group `([^/]*)` at the end of a pattern captures the segment up to the next
slash. -/
theorem matchHere_segment (seg tail : GoString) (hseg : '/' ∉ seg)
    (htail : tail = [] ∨ ∃ r, tail = '/' :: r) :
    matchHere [.rep .notSlash 0 true] (seg ++ tail) = some ([seg], tail) := by
  unfold matchHere
  rw [takeWhile_segment seg tail hseg htail]
  apply tryFrom_top _ _ _ _ (Nat.zero_le _)
  simp [matchHere]

theorem findLeftmost_of_matchHere (re : Regex) (s : GoString) (caps : List GoString)
    (rest : GoString) (h : matchHere re s = some (caps, rest)) :
    findLeftmost re s = some (s.take (s.length - rest.length) :: caps) := by
  cases s with
  | nil =>
    unfold findLeftmost
    rw [h]
    simp
  | cons c t =>
    unfold findLeftmost
    rw [h]

theorem FindStringSubmatch_of_matchHere (lib : RegexpLibrary) (pattern s : GoString)
    (re : Regex) (caps : List GoString) (rest : GoString)
    (hp : parsePattern pattern = some re) (h : matchHere re s = some (caps, rest)) :
    FindStringSubmatch lib pattern s
      = .ok (some (s.take (s.length - rest.length) :: caps)) := by
  simp only [FindStringSubmatch, hp]
  rw [findLeftmost_of_matchHere _ _ _ _ h]

/-- With a download root of plain bytes, the pattern `<root>/([^/]*)` on a path
that starts with the root captures the first segment after the root. -/
theorem fileName_first_segment (cfg : ConfigFile) (lib : RegexpLibrary) (seg tail : GoString)
    (hplain : ∀ c ∈ cfg.DownloadPathPrefix, isPlain c = true) (hseg : '/' ∉ seg)
    (htail : tail = [] ∨ ∃ r, tail = '/' :: r) :
    ∃ whole, FindStringSubmatch lib (fileNamePattern cfg)
      (cfg.DownloadPathPrefix ++ '/' :: (seg ++ tail)) = .ok (some [whole, seg]) := by
  have hk : parsePattern "/([^/]*)".toList
      = some (litItems "/".toList ++ [Item.rep CharClass.notSlash 0 true]) := by decide
  have hp : parsePattern (fileNamePattern cfg) = some (litItems cfg.DownloadPathPrefix ++
      (litItems "/".toList ++ [Item.rep CharClass.notSlash 0 true])) := by
    unfold fileNamePattern
    rw [parsePattern_lits _ _ hplain, hk]
    rfl
  have h : matchHere (litItems cfg.DownloadPathPrefix ++
      (litItems "/".toList ++ [Item.rep CharClass.notSlash 0 true]))
      (cfg.DownloadPathPrefix ++ '/' :: (seg ++ tail)) = some ([seg], tail) := by
    rw [matchHere_lits]
    have e : '/' :: (seg ++ tail) = "/".toList ++ (seg ++ tail) := rfl
    rw [e, matchHere_lits]
    exact matchHere_segment seg tail hseg htail
  exact ⟨_, FindStringSubmatch_of_matchHere _ _ _ _ _ _ hp h⟩

theorem type_segment (cfg : ConfigFile) (lib : RegexpLibrary) (name tail : GoString)
    (hplain : ∀ c ∈ cfg.DownloadPathPrefix, isPlain c = true) (hname : '/' ∉ name)
    (htail : tail = [] ∨ ∃ r, tail = '/' :: r) :
    ∃ whole, FindStringSubmatch lib (typePattern cfg)
      (cfg.DownloadPathPrefix ++ "/auto/".toList ++ name ++ tail) = .ok (some [whole, name]) := by
  have hk : parsePattern "/auto/([^/]*)".toList
      = some (litItems "/auto/".toList ++ [Item.rep CharClass.notSlash 0 true]) := by decide
  have hp : parsePattern (typePattern cfg) = some (litItems cfg.DownloadPathPrefix ++
      (litItems "/auto/".toList ++ [Item.rep CharClass.notSlash 0 true])) := by
    unfold typePattern
    rw [parsePattern_lits _ _ hplain, hk]
    rfl
  have h : matchHere (litItems cfg.DownloadPathPrefix ++
      (litItems "/auto/".toList ++ [Item.rep CharClass.notSlash 0 true]))
      (cfg.DownloadPathPrefix ++ "/auto/".toList ++ name ++ tail) = some ([name], tail) := by
    rw [List.append_assoc, List.append_assoc, matchHere_lits, matchHere_lits]
    exact matchHere_segment name tail hname htail
  exact ⟨_, FindStringSubmatch_of_matchHere _ _ _ _ _ _ hp h⟩

theorem auto_matches (cfg : ConfigFile) (lib : RegexpLibrary) (rest : GoString)
    (hplain : ∀ c ∈ cfg.DownloadPathPrefix, isPlain c = true) :
    MatchString lib (autoPattern cfg) (cfg.DownloadPathPrefix ++ "/auto".toList ++ rest)
      = true := by
  have hk : parsePattern "/auto".toList = some (litItems "/auto".toList ++ []) := by decide
  have hp : parsePattern (autoPattern cfg) = some (litItems cfg.DownloadPathPrefix ++
      (litItems "/auto".toList ++ [])) := by
    unfold autoPattern
    rw [parsePattern_lits _ _ hplain, hk]
    rfl
  have h : matchHere (litItems cfg.DownloadPathPrefix ++ (litItems "/auto".toList ++ []))
      (cfg.DownloadPathPrefix ++ "/auto".toList ++ rest) = some ([], rest) := by
    rw [List.append_assoc, matchHere_lits, matchHere_lits]
    rfl
  simp only [MatchString, FindStringSubmatch_of_matchHere _ _ _ _ _ _ hp h]
  rfl

/-- C5, as the code has it: for a download root made of plain bytes (ASCII, no
regular-expression metacharacter) and a path `<root>/auto/<name>` followed by nothing or
by `/...`, with `name` not registered, `parsePath` does not fail, logs the miss and returns
library ID 0; with `fileNumber = 1` the local path is the path as given and the remote path
is `"/" ++ RemoteDefaultPath`; otherwise the local path is `<root>/auto` (the first segment
after the root is `auto`, not the library name) and the remote path is
`"/" ++ RemoteDefaultPath ++ "/auto"`. This is the result of the unclassified case, which
for a path `<root>/<seg>...` that the `/auto` pattern does not match gives `<root>/<seg>`
and `"/" ++ RemoteDefaultPath ++ "/" ++ seg` when `fileNumber` is not 1, and the path as
given and `"/" ++ RemoteDefaultPath` when it is. -/
theorem parsePath_unknown_library (cfg : ConfigFile) (name tail : GoString) (fileNumber : Int)
    (w : World) (hplain : ∀ c ∈ cfg.DownloadPathPrefix, isPlain c = true)
    (hname : '/' ∉ name) (htail : tail = [] ∨ ∃ r, tail = '/' :: r)
    (hunknown : cfg.libraryList.get name = 0) :
    parsePath cfg (cfg.DownloadPathPrefix ++ "/auto/".toList ++ name ++ tail) fileNumber w =
      .ok ((if fileNumber = 1 then
              (cfg.DownloadPathPrefix ++ "/auto/".toList ++ name ++ tail,
                "/".toList ++ cfg.RemoteDefaultPath, 0)
            else
              (cfg.DownloadPathPrefix ++ "/auto".toList,
                "/".toList ++ cfg.RemoteDefaultPath ++ "/auto".toList, 0)),
        w.logError "Unknow library".toList) ∧
    ∀ seg rest : GoString, '/' ∉ seg → (rest = [] ∨ ∃ r, rest = '/' :: r) →
      MatchString w.regexp (autoPattern cfg)
        (cfg.DownloadPathPrefix ++ "/".toList ++ seg ++ rest) = false →
      parsePath cfg (cfg.DownloadPathPrefix ++ "/".toList ++ seg ++ rest) fileNumber w =
        .ok ((if fileNumber = 1 then
                (cfg.DownloadPathPrefix ++ "/".toList ++ seg ++ rest,
                  "/".toList ++ cfg.RemoteDefaultPath, 0)
              else
                (cfg.DownloadPathPrefix ++ "/".toList ++ seg,
                  "/".toList ++ cfg.RemoteDefaultPath ++ "/".toList ++ seg, 0)), w) := by
  constructor
  · have hm : MatchString w.regexp (autoPattern cfg)
        (cfg.DownloadPathPrefix ++ "/auto/".toList ++ name ++ tail) = true := by
      have e : cfg.DownloadPathPrefix ++ "/auto/".toList ++ name ++ tail
          = cfg.DownloadPathPrefix ++ "/auto".toList ++ ('/' :: (name ++ tail)) := by
        simp
      rw [e]
      exact auto_matches cfg _ _ hplain
    obtain ⟨whole1, htype⟩ := type_segment cfg w.regexp name tail hplain hname htail
    have hseg : ∃ whole, FindStringSubmatch w.regexp (fileNamePattern cfg)
        (cfg.DownloadPathPrefix ++ "/auto/".toList ++ name ++ tail)
        = .ok (some [whole, "auto".toList]) := by
      have e : cfg.DownloadPathPrefix ++ "/auto/".toList ++ name ++ tail
          = cfg.DownloadPathPrefix ++ '/' :: ("auto".toList ++ ('/' :: (name ++ tail))) := by
        simp
      rw [e]
      exact fileName_first_segment cfg _ "auto".toList _ hplain (by decide) (Or.inr ⟨_, rfl⟩)
    obtain ⟨whole2, hseg⟩ := hseg
    unfold parsePath
    simp only [hm, if_true, htype, index, List.get?, hunknown, ne_eq,
      not_true_eq_false, if_false, hseg]
    by_cases h1 : fileNumber = 1
    · simp [h1]
    · simp [h1]
  · intro seg rest hseg hrest hno
    have hs : ∃ whole, FindStringSubmatch w.regexp (fileNamePattern cfg)
        (cfg.DownloadPathPrefix ++ "/".toList ++ seg ++ rest) = .ok (some [whole, seg]) := by
      have e : cfg.DownloadPathPrefix ++ "/".toList ++ seg ++ rest
          = cfg.DownloadPathPrefix ++ '/' :: (seg ++ rest) := by
        simp
      rw [e]
      exact fileName_first_segment cfg _ seg rest hplain hseg hrest
    obtain ⟨whole, hs⟩ := hs
    unfold parsePath
    simp only [hno, Bool.false_eq_true, if_false, hs, index, List.get?]
    by_cases h1 : fileNumber = 1
    · simp [h1]
    · simp [h1]

/-- Witness of `parsePath_unknown_library`: Scenario E. -/
theorem parsePath_unknown_library_witness :
    (∀ c ∈ exampleConfigReady.DownloadPathPrefix, isPlain c = true) ∧
    '/' ∉ "Foo".toList ∧ exampleConfigReady.libraryList.get "Foo".toList = 0 ∧
    parsePath exampleConfigReady
        (exampleConfigReady.DownloadPathPrefix ++ "/auto/".toList ++ "Foo".toList ++ "/x".toList)
        3 (worldOf fsEmpty) =
      .ok ((if (3 : Int) = 1 then
              (exampleConfigReady.DownloadPathPrefix ++ "/auto/".toList ++ "Foo".toList
                ++ "/x".toList, "/".toList ++ exampleConfigReady.RemoteDefaultPath, 0)
            else
              (exampleConfigReady.DownloadPathPrefix ++ "/auto".toList,
                "/".toList ++ exampleConfigReady.RemoteDefaultPath ++ "/auto".toList, 0)),
        (worldOf fsEmpty).logError "Unknow library".toList) :=
  ⟨by decide, by decide, by decide,
    (parsePath_unknown_library exampleConfigReady "Foo".toList "/x".toList 3 (worldOf fsEmpty)
      (by decide) (by decide) (Or.inr ⟨"x".toList, rfl⟩) (by decide)).1⟩

/-- Counterexample to C5 as stated: in Scenario E (root `/dl`, input `/dl/auto/Foo/x`,
three files) `parsePath` returns the local path `/dl/auto`, not `/dl/Foo`, and the remote
path `/default/auto`, not the default remote path itself; and with the root `/dl(1)`, whose
parentheses are read as a group, the input `/dl(1)/auto/Foo/x` matches none of the
patterns and `parsePath` fails with an index-out-of-range panic. -/
theorem scenarioE_local_path :
    Except.map (fun r => r.1)
        (parsePath exampleConfigReady "/dl/auto/Foo/x".toList 3 (worldOf fsEmpty))
      = .ok ("/dl/auto".toList, "/default/auto".toList, 0) ∧
    "/dl/auto".toList ≠ "/dl/Foo".toList ∧ "/default/auto".toList ≠ "/default".toList ∧
    Except.map (fun r => r.1)
        (parsePath parenConfig "/dl(1)/auto/Foo/x".toList 3 (worldOf fsEmpty))
      = .error .indexOutOfRange := by
  refine ⟨by decide, by decide, by decide, by decide⟩

/-! ## Pruning -/

/-- The loop of `cleanUp` on an initial part of the item that ends before a slash: with
enough steps it returns, and what it removes are such initial parts, longer than the
root. -/
theorem cleanUpLoop_spec (item : GoString) (prefixLen : Nat) (fuel : Nat) (lp : GoString)
    (w : World) (hfuel : lp.length ≤ fuel) (hcut : ∃ tl, item = lp ++ '/' :: tl) :
    ∃ (w1 : World) (removed : List GoString), cleanUpLoop prefixLen fuel lp w = .ok w1 ∧
      w1.trace = w.trace ++ removed.map Event.remove ∧
      ∀ r ∈ removed, (∃ tl, item = r ++ '/' :: tl) ∧ prefixLen < r.length := by
  induction fuel generalizing lp w with
  | zero =>
    have hl : lp = [] := List.length_eq_zero.1 (by omega)
    subst hl
    refine ⟨w, [], ?_, by simp, fun r hr => by cases hr⟩
    unfold cleanUpLoop
    simp [LastIndex]
  | succ fuel ih =>
    unfold cleanUpLoop
    split_ifs with hc
    · obtain ⟨a, b, e, _, hl⟩ := LastIndex_split lp '/' (by omega)
      have hs : sliceTo lp (LastIndex lp '/') = .ok a := by
        unfold sliceTo
        have hle : (0 : Int) ≤ LastIndex lp '/' ∧ LastIndex lp '/' ≤ (lp.length : Int) := by
          constructor
          · omega
          · have := LastIndex_lt_length lp '/'
            omega
        rw [if_pos hle, hl, Int.toNat_ofNat]
        conv_lhs => rw [e]
        simp
      simp only [hs]
      have hlen : lp.length = a.length + (b.length + 1) := by rw [e]; simp
      obtain ⟨tl, htl⟩ := hcut
      obtain ⟨w1, removed, h1, h2, h3⟩ :=
        ih a (w.emit (.remove lp)) (by omega) ⟨b ++ '/' :: tl, by rw [htl, e]; simp⟩
      refine ⟨w1, lp :: removed, h1, ?_, ?_⟩
      · rw [h2]
        simp [World.emit]
      · intro r hr
        rcases List.mem_cons.1 hr with e1 | hm
        · subst e1
          exact ⟨⟨tl, htl⟩, hc.1⟩
        · exact h3 r hm
    · exact ⟨w, [], rfl, by simp, fun r hr => by cases hr⟩

/-- The step budget that `cleanUp` gives to its loop is never used up. -/
theorem cleanUp_within_budget (cfg : ConfigFile) (localPath : GoString) (w : World) :
    cleanUp cfg localPath w ≠ .error .stepLimit := by
  unfold cleanUp
  cases hs : sliceTo localPath (LastIndex localPath '/') with
  | error a =>
    unfold sliceTo at hs
    split_ifs at hs
    cases hs
    simp
  | ok parent =>
    obtain ⟨w1, removed, h1, _, _⟩ :=
      cleanUpLoop_spec (parent ++ ['/']) cfg.DownloadPathPrefix.length parent.length parent
        (w.emit (.removeAll localPath)) (le_refl _) ⟨[], rfl⟩
    simp only [h1]
    simp

/-- For every download root and every item path that starts with the root followed by
`'/'`, `cleanUp` returns (no out-of-range slice, the loop ends); after the recursive
removal of the item, every path it passes to `os.Remove` is an initial part of the item
that ends just before a `'/'`, is strictly longer than the root string and begins with the
root followed by `'/'`. This is a statement about the strings passed, not about the
directories they name. -/
theorem cleanUp_removes_initial_parts (cfg : ConfigFile) (rest : GoString) (w : World) :
    ∃ (w1 : World) (removed : List GoString),
      cleanUp cfg (cfg.DownloadPathPrefix ++ '/' :: rest) w = .ok w1 ∧
      w1.trace = w.trace ++
        Event.removeAll (cfg.DownloadPathPrefix ++ '/' :: rest) :: removed.map Event.remove ∧
      (∀ r ∈ removed,
        (∃ tl, cfg.DownloadPathPrefix ++ '/' :: rest = r ++ '/' :: tl) ∧
        cfg.DownloadPathPrefix.length < r.length ∧
        (cfg.DownloadPathPrefix ++ ['/']) <+: r) := by
  obtain ⟨a, b, e, _, hl⟩ := LastIndex_split (cfg.DownloadPathPrefix ++ '/' :: rest) '/'
    (by
      by_contra hneg
      have := not_mem_of_LastIndex_neg (cfg.DownloadPathPrefix ++ '/' :: rest) '/' (by omega)
      exact this (by simp))
  have hs : sliceTo (cfg.DownloadPathPrefix ++ '/' :: rest)
      (LastIndex (cfg.DownloadPathPrefix ++ '/' :: rest) '/') = .ok a := by
    unfold sliceTo
    have hle : (0 : Int) ≤ LastIndex (cfg.DownloadPathPrefix ++ '/' :: rest) '/' ∧
        LastIndex (cfg.DownloadPathPrefix ++ '/' :: rest) '/'
          ≤ ((cfg.DownloadPathPrefix ++ '/' :: rest).length : Int) := by
      constructor
      · omega
      · have := LastIndex_lt_length (cfg.DownloadPathPrefix ++ '/' :: rest) '/'
        omega
    rw [if_pos hle, hl, Int.toNat_ofNat]
    conv_lhs => rw [e]
    simp
  obtain ⟨w1, removed, h1, h2, h3⟩ :=
    cleanUpLoop_spec (cfg.DownloadPathPrefix ++ '/' :: rest) cfg.DownloadPathPrefix.length
      a.length a (w.emit (.removeAll (cfg.DownloadPathPrefix ++ '/' :: rest))) (le_refl _)
      ⟨b, e⟩
  have hpre : ∀ r ∈ removed, (cfg.DownloadPathPrefix ++ ['/']) <+: r := by
    intro r hr
    obtain ⟨⟨tl, htl⟩, hlen⟩ := h3 r hr
    have hp1 : (cfg.DownloadPathPrefix ++ ['/']) <+: (cfg.DownloadPathPrefix ++ '/' :: rest) :=
      ⟨rest, by simp⟩
    have hp2 : r <+: (cfg.DownloadPathPrefix ++ '/' :: rest) := ⟨'/' :: tl, htl.symm⟩
    exact List.prefix_of_prefix_length_le hp1 hp2 (by simp; omega)
  refine ⟨w1, removed, ?_, ?_, ?_⟩
  · unfold cleanUp
    simp only [hs]
    exact h1
  · rw [h2]
    simp [World.emit]
  · intro r hr
    obtain ⟨hcut, hlen⟩ := h3 r hr
    exact ⟨hcut, hlen, hpre r hr⟩

/-- C9, failing input: with the download root `/dl` the item `/dl//x` starts with `/dl/`
and passes the entry check of `main`; after the transfer and the recursive removal of the
item, `cleanUp` passes `/dl/` to `os.Remove`, which names the download root itself (the
guard of the loop compares the lengths of the two strings, and `/dl/` is longer than
`/dl`). In the same way the item `/dl/../etc/x` makes `cleanUp` pass `/dl/../etc` and
`/dl/..`, which name `/etc` and `/`, outside and above the root. -/
theorem cleanUp_reaches_root :
    ("/dl".toList ++ "/".toList) <+: "/dl//x".toList ∧
    Except.map (fun r => r.2.trace) (main exampleConfig 1 "/dl//x".toList (worldOf fsEmpty))
      = .ok [Event.upload "/dl//x".toList "/default".toList,
          Event.removeAll "/dl//x".toList, Event.remove "/dl/".toList] ∧
    Clean "/dl/".toList = exampleConfig.DownloadPathPrefix ∧
    ("/dl".toList ++ "/".toList) <+: "/dl/../etc/x".toList ∧
    Except.map (fun r => r.trace) (cleanUp exampleConfig "/dl/../etc/x".toList (worldOf fsEmpty))
      = .ok [Event.removeAll "/dl/../etc/x".toList, Event.remove "/dl/../etc".toList,
          Event.remove "/dl/..".toList] ∧
    Clean "/dl/../etc".toList = "/etc".toList ∧ Clean "/dl/..".toList = "/".toList := by
  refine ⟨by decide, by decide, by decide, by decide, by decide, by decide, by decide⟩

/-! ## The entry check of `main` -/

theorem findLeftmost_isSome_iff (re : Regex) (s : GoString) :
    (findLeftmost re s).isSome = true ↔ ∃ t, t <:+ s ∧ (matchHere re t).isSome = true := by
  induction s with
  | nil =>
    unfold findLeftmost
    constructor
    · intro h
      refine ⟨[], List.suffix_refl _, ?_⟩
      cases hm : matchHere re [] with
      | none => rw [hm] at h; cases h
      | some r => rfl
    · rintro ⟨t, ht, hm⟩
      have : t = [] := List.eq_nil_of_suffix_nil ht
      subst this
      cases hm2 : matchHere re [] with
      | none => rw [hm2] at hm; cases hm
      | some r => rfl
  | cons c s ih =>
    unfold findLeftmost
    cases hm : matchHere re (c :: s) with
    | some r =>
      simp only [Option.isSome_some, true_iff]
      exact ⟨c :: s, List.suffix_refl _, by rw [hm]; rfl⟩
    | none =>
      simp only
      rw [ih]
      constructor
      · rintro ⟨t, ht, h⟩
        exact ⟨t, ht.trans (List.suffix_cons c s), h⟩
      · rintro ⟨t, ht, h⟩
        rcases List.suffix_cons_iff.1 ht with e | ht2
        · subst e
          rw [hm] at h
          cases h
        · exact ⟨t, ht2, h⟩

theorem matchHere_entry (cfg : ConfigFile) (t : GoString) :
    (matchHere (litItems cfg.DownloadPathPrefix ++
        (litItems "/".toList ++ [Item.rep CharClass.dot 0 false])) t).isSome = true
      ↔ (cfg.DownloadPathPrefix ++ ['/']) <+: t := by
  constructor
  · intro h
    obtain ⟨s, hs, h1⟩ := matchHere_lits_inv _ _ _ h
    obtain ⟨s2, hs2, _⟩ := matchHere_lits_inv _ _ _ h1
    exact ⟨s2, by rw [hs, hs2]; simp⟩
  · rintro ⟨y, hy⟩
    have e : t = cfg.DownloadPathPrefix ++ ("/".toList ++ y) := by rw [← hy]; simp
    rw [e, matchHere_lits, matchHere_lits]
    have : matchHere [Item.rep CharClass.dot 0 false] y
        = some ([], y.drop (y.takeWhile CharClass.dot.test).length) := by
      unfold matchHere
      apply tryFrom_top _ _ _ _ (Nat.zero_le _)
      simp [matchHere]
    rw [this]
    rfl

/-- For a download root of plain bytes, the entry check of `main` accepts exactly
the paths that contain the root followed by `'/'` somewhere, not only at their start. -/
theorem entry_check_iff_infix (cfg : ConfigFile) (lib : RegexpLibrary) (s : GoString)
    (hplain : ∀ c ∈ cfg.DownloadPathPrefix, isPlain c = true) :
    MatchString lib (entryPattern cfg) s = true ↔ (cfg.DownloadPathPrefix ++ ['/']) <:+: s := by
  have hk : parsePattern "/.*".toList
      = some (litItems "/".toList ++ [Item.rep CharClass.dot 0 false]) := by decide
  have hp : parsePattern (entryPattern cfg) = some (litItems cfg.DownloadPathPrefix ++
      (litItems "/".toList ++ [Item.rep CharClass.dot 0 false])) := by
    unfold entryPattern
    rw [parsePattern_lits _ _ hplain, hk]
    rfl
  simp only [MatchString, FindStringSubmatch, hp]
  rw [findLeftmost_isSome_iff, List.infix_iff_prefix_suffix]
  constructor
  · rintro ⟨t, ht, h⟩
    exact ⟨t, (matchHere_entry cfg t).1 h, ht⟩
  · rintro ⟨t, h, ht⟩
    exact ⟨t, ht, (matchHere_entry cfg t).2 h⟩

/-- C4, failing input: with download root `/dl` the path `/other/dl/file` does not start
with `/dl/`, yet the entry check of `main` accepts it; `parsePath` is called, the path is
handed to the transfer and then removed, and with two files delivered the local path
becomes `/dl/file`, a different path under the root. Scenario D (`/other/root/file`) is
rejected. -/
theorem entry_check_accepts_outside_path :
    ¬ (("/dl".toList ++ "/".toList) <+: "/other/dl/file".toList) ∧
    MatchString (worldOf fsEmpty).regexp (entryPattern exampleConfig) "/other/dl/file".toList
      = true ∧
    Except.map (fun r => (r.1, r.2.trace))
        (main exampleConfig 1 "/other/dl/file".toList (worldOf fsEmpty))
      = .ok (("/other/dl/file".toList, "/default".toList, 0),
          [Event.upload "/other/dl/file".toList "/default".toList,
           Event.removeAll "/other/dl/file".toList, Event.remove "/other/dl".toList]) ∧
    Except.map (fun r => r.1) (main exampleConfig 2 "/other/dl/file".toList (worldOf fsEmpty))
      = .ok ("/dl/file".toList, "/default/file".toList, 0) ∧
    Except.map (fun r => r.1) (main exampleConfig 1 "/other/root/file".toList (worldOf fsEmpty))
      = .error (.fatal "Error: file path is illegal".toList) := by
  refine ⟨by decide, by decide, by decide, by decide, by decide⟩

/-! ## The adult-content processor -/

/-- When the target name `<dir>/<number><suffix>` already exists, the walk function of
`parseXXX` leaves the file, the file system and the counter as they are: the branch that
renames to `<number>-<counter><suffix>` is taken only when `os.Stat` fails with an error
other than `ENOENT`. -/
theorem xxxWalkFn_existing_target (number path fPath fileSuffix : GoString)
    (st : World × Int) (info target : FileInfo)
    (hdir : info.isDir = false) (hbig : isJunkSize info.size = false)
    (h1 : sliceTo path (LastIndex path '/' + 1) = .ok fPath)
    (h2 : sliceFrom path (LastIndex path '.') = .ok fileSuffix)
    (h3 : st.1.fs.stat (fPath ++ number ++ fileSuffix) = .ok target) :
    xxxWalkFn number path (.ok info) st = .ok (st, none) := by
  unfold xxxWalkFn
  simp only [hdir, Bool.not_false, if_true, hbig, Bool.false_eq_true, if_false, h1, h2, h3]

/-- The numbered name `<number>-<counter><suffix>` is used, and the counter incremented,
exactly when `os.Stat` on the target fails with an error other than `ENOENT`. -/
theorem xxxWalkFn_stat_failure (number path fPath fileSuffix : GoString)
    (st : World × Int) (info : FileInfo) (err : Errno)
    (hdir : info.isDir = false) (hbig : isJunkSize info.size = false)
    (h1 : sliceTo path (LastIndex path '/' + 1) = .ok fPath)
    (h2 : sliceFrom path (LastIndex path '.') = .ok fileSuffix)
    (h3 : st.1.fs.stat (fPath ++ number ++ fileSuffix) = .error err) (h4 : err ≠ .ENOENT) :
    xxxWalkFn number path (.ok info) st =
      .ok ((st.1.rename path (fPath ++ number ++ '-' :: Itoa st.2 ++ fileSuffix), st.2 + 1),
        none) := by
  unfold xxxWalkFn
  simp only [hdir, Bool.not_false, if_true, hbig, Bool.false_eq_true, if_false, h1, h2, h3, h4]

/-- C7, failing input: an item directory with the two files `a.mkv` and `b.mkv` of 150 MiB
each and the identifier `AB-100`. The walk renames `a.mkv` to `AB-100.mkv`; at `b.mkv` the
target `AB-100.mkv` exists, `os.Stat` returns no error, and nothing is done: `b.mkv` keeps
its name, no `AB-100-1.mkv` appears. -/
theorem collision_leaves_second_file :
    Except.map (fun r => (r.1, r.2.trace, r.2.fs.files))
        (parseXXX exampleConfig "/dl/auto/Adult/AB-100".toList "Adult".toList
          "/lib/adult".toList (worldOf fsTwoLarge))
      = .ok (("/dl/auto/Adult/AB-100".toList, "/lib/adult/AB-100".toList),
          [Event.rename "/dl/auto/Adult/AB-100/a.mkv".toList
             "/dl/auto/Adult/AB-100/AB-100.mkv".toList,
           Event.capture "/dl/auto/Adult/AB-100".toList],
          [("/dl/auto/Adult/AB-100/AB-100.mkv".toList, 150 * MiB),
           ("/dl/auto/Adult/AB-100/b.mkv".toList, 150 * MiB)]) := by
  decide


end Prenamer
